import Mathlib

/-!
Verification of the adaptable-load-balancer core against its specification.

The Python sources under `src/load_balancer/` are shallowly embedded:

* `server_pool.py`  → `LB.PoolState` and `LB.applyOp` (dicts become
  association lists with Python `dict` replace-or-append semantics, the
  `manually_disabled` set becomes a duplicate-free list, response times are
  rationals);
* `load_balancer.py::handle_client` → `LB.handleClientTrace`, an event trace
  parameterised by the proxy outcome;
* `proxy.py` → `LB.handleConnection` over a finite script of readiness
  events;
* `strategies.py` (`ResponseTimeBasedStrategy`, `ALPHA1Strategy` feedback,
  `BETA1Strategy`) → the `RT`, `AURA` and `BETA1` namespaces.

Randomness, wall-clock time and the SHA-256 digest are exposed as explicit
parameters; everything else is translated directly from the source.
-/

namespace LB

/-- One pool entry, as built by `ServerPool.add_server`:
`{'host': host, 'port': port, 'healthy': True, 'connections': 0, 'failures': 0}`. -/
structure Entry where
  host : String
  port : Nat
  healthy : Bool
  connections : Nat
  failures : Nat
  deriving DecidableEq, Repr

/-- The canonical dictionary key, Python `f"{host}:{port}"`. -/
def serverKey (host : String) (port : Nat) : String :=
  host ++ ":" ++ toString port

/-- Key of an entry as derived from its own fields. -/
def entryKey (e : Entry) : String :=
  serverKey e.host e.port

/-- Python `d[k]` lookup on an association list (first match). -/
def dictGet (k : String) : List (String × α) → Option α
  | [] => none
  | (k₁, v) :: rest => if k₁ = k then some v else dictGet k rest

/-- Python `d[k] = v`: replace the value at an existing key in place,
otherwise append. -/
def dictSet (k : String) (v : α) : List (String × α) → List (String × α)
  | [] => [(k, v)]
  | (k₁, v₁) :: rest =>
      if k₁ = k then (k₁, v) :: rest else (k₁, v₁) :: dictSet k v rest

/-- In-place update of the value stored at key `k` (no-op on other keys). -/
def dictModify (k : String) (f : α → α) : List (String × α) → List (String × α)
  | [] => []
  | (k₁, v) :: rest =>
      if k₁ = k then (k₁, f v) :: dictModify k f rest
      else (k₁, v) :: dictModify k f rest

/-- Python `set.add`. -/
def setAdd (k : String) (s : List String) : List String :=
  if k ∈ s then s else s ++ [k]

/-- Python `set.discard`. -/
def setDiscard (k : String) (s : List String) : List String :=
  s.filter (· ≠ k)

/-- State of `ServerPool`: `self.servers`, `self.manually_disabled`,
`self.response_times` (a defaultdict, absent keys read as `[]`). -/
structure PoolState where
  servers : List (String × Entry)
  manuallyDisabled : List String
  responseTimes : List (String × List ℚ)
  deriving DecidableEq, Repr

/-- `ServerPool.__init__`. -/
def initPool : PoolState :=
  { servers := [], manuallyDisabled := [], responseTimes := [] }

/-- The public mutating operations of `ServerPool`. -/
inductive PoolOp where
  | addServer (host : String) (port : Nat)
  | markHealthy (host : String) (port : Nat)
  | markUnhealthy (host : String) (port : Nat)
  | manuallyDisable (host : String) (port : Nat)
  | manuallyEnable (host : String) (port : Nat)
  | incConn (host : String) (port : Nat)
  | decConn (host : String) (port : Nat)
  | recordResponseTime (host : String) (port : Nat) (d : ℚ)
  deriving DecidableEq, Repr

/-- `ServerPool.add_server`: unconditionally writes the default entry at the
key (Python dict assignment). -/
def addServerOp (host : String) (port : Nat) (s : PoolState) : PoolState :=
  let e : Entry :=
    { host := host, port := port, healthy := true,
      connections := 0, failures := 0 }
  { s with servers := dictSet (serverKey host port) e s.servers }

/-- Body of `ServerPool.mark_unhealthy` on one entry: increment `failures`
and set `healthy = False` once `failures >= 3`. -/
def bumpFailures (e : Entry) : Entry :=
  let f := e.failures + 1
  { e with failures := f, healthy := if 3 ≤ f then false else e.healthy }

/-- `ServerPool.mark_unhealthy`: the guarded in-place update for the key. -/
def markUnhealthyOp (host : String) (port : Nat) (s : PoolState) : PoolState :=
  { s with servers := dictModify (serverKey host port) bumpFailures s.servers }

/-- Per-entry body of `ServerPool.mark_healthy` and of the registered-key
branch of `manually_enable_server`: `healthy = True`, `failures = 0`. -/
def resetHealthy (e : Entry) : Entry :=
  { e with healthy := true, failures := 0 }

/-- Per-entry body of `manually_disable_server`: `healthy = False`. -/
def forceUnhealthy (e : Entry) : Entry :=
  { e with healthy := false }

/-- Increment of the `connections` field. -/
def incConnEntry (e : Entry) : Entry :=
  { e with connections := e.connections + 1 }

/-- Decrement of the `connections` field. -/
def decConnEntry (e : Entry) : Entry :=
  { e with connections := e.connections - 1 }

/-- `ServerPool.mark_healthy`: if the key is registered and not manually
disabled, set `healthy = True` and `failures = 0`. -/
def markHealthyOp (host : String) (port : Nat) (s : PoolState) : PoolState :=
  if serverKey host port ∈ s.manuallyDisabled then s
  else
    { s with servers := dictModify (serverKey host port) resetHealthy s.servers }

/-- `ServerPool.manually_disable_server`: always add the key to the disabled
set; if registered, force `healthy = False`. -/
def manuallyDisableOp (host : String) (port : Nat) (s : PoolState) : PoolState :=
  let k := serverKey host port
  { s with
      manuallyDisabled := setAdd k s.manuallyDisabled,
      servers := dictModify k forceUnhealthy s.servers }

/-- `ServerPool.manually_enable_server`: discard the key from the disabled
set; if registered, set `healthy = True` and `failures = 0`. -/
def manuallyEnableOp (host : String) (port : Nat) (s : PoolState) : PoolState :=
  let k := serverKey host port
  { s with
      manuallyDisabled := setDiscard k s.manuallyDisabled,
      servers := dictModify k resetHealthy s.servers }

/-- `ServerPool.increment_connections`. -/
def incConnOp (host : String) (port : Nat) (s : PoolState) : PoolState :=
  { s with servers := dictModify (serverKey host port) incConnEntry s.servers }

/-- `ServerPool.decrement_connections`: guarded by the key being registered
with a strictly positive count. -/
def decConnOp (host : String) (port : Nat) (s : PoolState) : PoolState :=
  match dictGet (serverKey host port) s.servers with
  | none => s
  | some e =>
      if 0 < e.connections then
        { s with servers := dictModify (serverKey host port) decConnEntry s.servers }
      else s

/-- `ServerPool.record_response_time`: append, then drop the oldest sample
when the window exceeds 100. -/
def recordResponseTimeOp (host : String) (port : Nat) (d : ℚ)
    (s : PoolState) : PoolState :=
  let k := serverKey host port
  let old := (dictGet k s.responseTimes).getD []
  let appended := old ++ [d]
  let window := if 100 < appended.length then appended.drop 1 else appended
  { s with responseTimes := dictSet k window s.responseTimes }

/-- Dispatch a single pool operation. -/
def applyOp (s : PoolState) : PoolOp → PoolState
  | .addServer h p => addServerOp h p s
  | .markHealthy h p => markHealthyOp h p s
  | .markUnhealthy h p => markUnhealthyOp h p s
  | .manuallyDisable h p => manuallyDisableOp h p s
  | .manuallyEnable h p => manuallyEnableOp h p s
  | .incConn h p => incConnOp h p s
  | .decConn h p => decConnOp h p s
  | .recordResponseTime h p d => recordResponseTimeOp h p d s

/-- Run a sequence of pool operations from a given state. -/
def runOps (s : PoolState) : List PoolOp → PoolState
  | [] => s
  | op :: rest => runOps (applyOp s op) rest

/-- `ServerPool.get_healthy_servers`: the entries whose `healthy` flag is
set (the manual-disable set is not consulted). -/
def getHealthyServers (s : PoolState) : List Entry :=
  (s.servers.map Prod.snd).filter (·.healthy)

/-- The entries the specification says `HealthySnapshot` returns: healthy
and not manually disabled. -/
def eligibleServers (s : PoolState) : List Entry :=
  (s.servers.map Prod.snd).filter
    (fun e => e.healthy && !(decide (entryKey e ∈ s.manuallyDisabled)))

/-- Guard for one operation: `AddServer` must not target a currently
disabled key; every other operation is unrestricted. -/
def opGuard (s : PoolState) : PoolOp → Bool
  | .addServer h p => !(decide (serverKey h p ∈ s.manuallyDisabled))
  | _ => true

/-- A sequence of operations never calls `AddServer` on a key that is
manually disabled at the moment of the call. -/
def noDisabledReAdd : PoolState → List PoolOp → Bool
  | _, [] => true
  | s, op :: rest => opGuard s op && noDisabledReAdd (applyOp s op) rest

/-- `healthy` flag of the entry stored at `host:port`, if registered. -/
def healthyFlag (s : PoolState) (host : String) (port : Nat) : Option Bool :=
  (dictGet (serverKey host port) s.servers).map Entry.healthy

/-- `failures` counter of the entry stored at `host:port`, if registered. -/
def failCount (s : PoolState) (host : String) (port : Nat) : Option Nat :=
  (dictGet (serverKey host port) s.servers).map Entry.failures

/-- `connections` counter of the entry stored at `host:port`, if registered. -/
def connCount (s : PoolState) (host : String) (port : Nat) : Option Nat :=
  (dictGet (serverKey host port) s.servers).map Entry.connections

/-- State after `m` consecutive `mark_unhealthy` calls for `host:port`. -/
def unhealthyIter (s : PoolState) (host : String) (port : Nat) : Nat → PoolState
  | 0 => s
  | m + 1 => applyOp (unhealthyIter s host port m) (PoolOp.markUnhealthy host port)

/-- Pool well-formedness: every stored pair is keyed by its entry's own
`host:port` string, and a healthy entry is never manually disabled. -/
def poolInv (s : PoolState) : Prop :=
  ∀ p ∈ s.servers,
    p.1 = entryKey p.2 ∧ (p.2.healthy = true → p.1 ∉ s.manuallyDisabled)

/-! ### Dispatcher: `LoadBalancer.handle_client` as an event trace

The handler's interactions with the pool, the proxy, the strategy and its
own stats counters are recorded as an event list.  The proxy call is
abstracted by its outcome: `some true` / `some false` for a normal return,
`none` for an exception caught by the handler's `except` clause. -/

/-- Observable actions of one `handle_client` invocation. -/
inductive Ev where
  | totalReq
  | activeUp
  | sendError
  | failedReq
  | succReq
  | incActive (k : String)
  | proxyCall (k : String)
  | decActive (k : String)
  | poolRecord (k : String) (d : ℚ)
  | stratRecord (k : String) (d : ℚ)
  | activeDown
  | appendRecord (success : Bool)
  | bumpServerCount (k : String)
  | closeClient
  deriving DecidableEq, Repr

/-- The handler's outer `finally` block: stats bookkeeping, then response
time recording iff `success and selected_server`, then client close. -/
def finallyTrace (success : Bool) (selected : Option String)
    (supports : Bool) (dur : ℚ) : List Ev :=
  [Ev.activeDown, Ev.appendRecord success] ++
  (match selected with
   | some k => [Ev.bumpServerCount k]
   | none => []) ++
  (match selected with
   | some k =>
       if success then
         [Ev.poolRecord k dur] ++
           (if supports then [Ev.stratRecord k dur] else [])
       else []
   | none => []) ++
  [Ev.closeClient]

/-- `LoadBalancer.handle_client`: `allDown` is `pool.all_servers_down()`,
`selected` the key produced by `get_next_server`, `proxyOutcome` the result
of `proxy.handle_connection`, `supports` whether the configured strategy is
one of the response-time-aware classes, `dur` the measured duration. -/
def handleClientTrace (allDown : Bool) (selected : Option String)
    (proxyOutcome : Option Bool) (supports : Bool) (dur : ℚ) : List Ev :=
  [Ev.totalReq, Ev.activeUp] ++
  (if allDown then
    [Ev.sendError, Ev.failedReq] ++ finallyTrace false none supports dur
  else
    match selected with
    | none => [Ev.sendError, Ev.failedReq] ++ finallyTrace false none supports dur
    | some k =>
        [Ev.incActive k, Ev.proxyCall k] ++
        (match proxyOutcome with
         | some true => [Ev.succReq]
         | some false => [Ev.sendError, Ev.failedReq]
         | none => [Ev.failedReq]) ++
        [Ev.decActive k] ++
        finallyTrace (proxyOutcome == some true) (some k) supports dur)

/-- Events that touch the selected server: active-connection accounting,
the proxy call and the two response-time feedback channels. -/
def isServerEv : Ev → Bool
  | .incActive _ => true
  | .proxyCall _ => true
  | .decActive _ => true
  | .poolRecord _ _ => true
  | .stratRecord _ _ => true
  | _ => false

/-! ### Proxy: `NetworkProxy` over a finite script of readiness events

`create_server_connection` is abstracted by an `Option` (it returns `None`
exactly when the TCP connect raised).  Each iteration of the `forward_data`
loop consumes one `SpliceEv`; an exhausted script behaves like the select
timeout.  `forward_data` catches every exception internally, which the
model reflects by being a total function. -/

/-- Result of one `sock.recv`/`sendall` attempt inside the splice loop. -/
inductive RecvOutcome where
  | closed
  | forwarded
  | wouldBlock
  | sockErr
  | otherErr
  deriving DecidableEq, Repr

/-- One round of `select.select` in `forward_data`: an exceptional
condition, a timeout, or a list of ready sockets (`true` = client side)
with the outcome of handling each. -/
inductive SpliceEv where
  | exceptional
  | timeout
  | ready (events : List (Bool × RecvOutcome))
  deriving DecidableEq, Repr

/-- Final state of the splice loop. -/
structure SpliceResult where
  clientDone : Bool
  serverDone : Bool
  aborted : Bool
  deriving DecidableEq, Repr

/-- The `for sock in ready` body: returns the updated done flags and
whether a `return` was taken (non-would-block socket error or any other
exception). -/
def processReady : List (Bool × RecvOutcome) → Bool → Bool → Bool × Bool × Bool
  | [], c, s => (c, s, false)
  | (isClient, out) :: rest, c, s =>
      match out with
      | .closed =>
          if isClient then processReady rest true s else processReady rest c true
      | .forwarded => processReady rest c s
      | .wouldBlock => processReady rest c s
      | .sockErr => (c, s, true)
      | .otherErr => (c, s, true)

/-- `NetworkProxy.forward_data`: loop while not both sides are done,
breaking on an exceptional select, a select timeout, or an exhausted
script; a mid-loop `return` is recorded as `aborted`. -/
def forwardData : List SpliceEv → Bool → Bool → SpliceResult
  | [], c, s => { clientDone := c, serverDone := s, aborted := false }
  | ev :: rest, c, s =>
      if c && s then { clientDone := c, serverDone := s, aborted := false }
      else
        match ev with
        | .exceptional => { clientDone := c, serverDone := s, aborted := false }
        | .timeout => { clientDone := c, serverDone := s, aborted := false }
        | .ready evs =>
            match processReady evs c s with
            | (c₁, s₁, true) => { clientDone := c₁, serverDone := s₁, aborted := true }
            | (c₁, s₁, false) => forwardData rest c₁ s₁

/-- Outcome of `NetworkProxy.handle_connection`. -/
structure HandleResult where
  ok : Bool
  upstreamOpened : Bool
  upstreamClosed : Bool
  splice : Option SpliceResult
  deriving DecidableEq, Repr

/-- `NetworkProxy.handle_connection`: on a failed connect return `False`
without opening anything; otherwise run the splice, close the upstream
socket in the `finally`, and return `True`. -/
def handleConnection (connect : Option Unit) (script : List SpliceEv) :
    HandleResult :=
  match connect with
  | none =>
      { ok := false, upstreamOpened := false, upstreamClosed := false,
        splice := none }
  | some _ =>
      { ok := true, upstreamOpened := true, upstreamClosed := true,
        splice := some (forwardData script false false) }

end LB

namespace AURA

/-- The adaptive weights of `ALPHA1Strategy`: `self.beta`, `self.gamma`. -/
structure Weights where
  beta : ℚ
  gamma : ℚ
  deriving DecidableEq, Repr

/-- `ALPHA1Strategy.__init__`: `beta = 0.3`, `gamma = 0.4`. -/
def initWeights : Weights :=
  { beta := 3 / 10, gamma := 2 / 5 }

/-- `self.target_p99_ms = slo_threshold_ms * 0.9` with the default
`slo_threshold_ms = 100`. -/
def targetP99 : ℚ := 100 * (9 / 10)

/-- Ascending insertion used by the model of Python `sorted`. -/
def insertLe (x : ℚ) : List ℚ → List ℚ
  | [] => [x]
  | y :: rest => if x ≤ y then x :: y :: rest else y :: insertLe x rest

/-- Python `sorted` on a list of latencies. -/
def sortAsc : List ℚ → List ℚ
  | [] => []
  | x :: rest => insertLe x (sortAsc rest)

/-- The `current_p99` read in `_adjust_weights_feedback`:
`sorted[int(len * 0.99)]`, falling back to the last element. -/
def currentP99 (lat : List ℚ) : ℚ :=
  let sorted := sortAsc lat
  let idx := lat.length * 99 / 100
  if idx < sorted.length then sorted.getD idx 0
  else sorted.getD (sorted.length - 1) 0

/-- `ALPHA1Strategy._adjust_weights_feedback`: no-op below 100 samples;
otherwise read the p99 sample and scale both weights by 1.1 capped at 1.0
(p99 above target) or by 0.95 floored at 0.1. -/
def adjustWeightsFeedback (w : Weights) (lat : List ℚ) : Weights :=
  if lat.length < 100 then w
  else if targetP99 < currentP99 lat then
    { beta := min (w.beta * (11 / 10)) 1, gamma := min (w.gamma * (11 / 10)) 1 }
  else
    { beta := max (w.beta * (19 / 20)) (1 / 10),
      gamma := max (w.gamma * (19 / 20)) (1 / 10) }

/-- Weights after a sequence of feedback rounds, each seeing the global
latency ring as it stood at that round. -/
def runFeedback (w : Weights) : List (List ℚ) → Weights
  | [] => w
  | l :: rest => runFeedback (adjustWeightsFeedback w l) rest

end AURA

namespace RT

open LB

/-- State of `ResponseTimeBasedStrategy`: the per-key sample windows and
the bootstrap round-robin cursor. -/
structure RTState where
  responseTimes : List (String × List ℚ)
  roundRobinIndex : Nat
  deriving DecidableEq, Repr

/-- `ResponseTimeBasedStrategy.__init__`. -/
def initRT : RTState :=
  { responseTimes := [], roundRobinIndex := 0 }

/-- `ResponseTimeBasedStrategy.record_response_time` with the default
`max_history = 100`. -/
def recordRT (st : RTState) (host : String) (port : Nat) (d : ℚ) : RTState :=
  let k := serverKey host port
  let old := (dictGet k st.responseTimes).getD []
  let appended := old ++ [d]
  let window := if 100 < appended.length then appended.drop 1 else appended
  { st with responseTimes := dictSet k window st.responseTimes }

/-- `ResponseTimeBasedStrategy._get_average_response_time`: `None` for a
missing or empty window, else the arithmetic mean. -/
def avgResponseTime (st : RTState) (k : String) : Option ℚ :=
  match dictGet k st.responseTimes with
  | none => none
  | some [] => none
  | some ts => some (ts.sum / ts.length)

/-- Python `min(pairs, key=lambda x: x[1])`: the first pair attaining the
minimal second component. -/
def minBySndAux (best : Entry × ℚ) : List (Entry × ℚ) → Entry × ℚ
  | [] => best
  | p :: rest => minBySndAux (if p.2 < best.2 then p else best) rest

/-- `ResponseTimeBasedStrategy.select_server`.  `exploreCoin` is the
outcome of `random.random() < 0.2` and `exploreIdx` drives
`random.choice`; both are consulted only on the mixed-data path. -/
def selectServer (st : RTState) (list : List Entry)
    (exploreCoin : Bool) (exploreIdx : Nat) : Option Entry × RTState :=
  if list.isEmpty then (none, st)
  else
    let withData :=
      list.filterMap fun srv =>
        (avgResponseTime st (entryKey srv)).map fun a => (srv, a)
    let withoutData :=
      list.filter fun srv => (avgResponseTime st (entryKey srv)).isNone
    if withData.isEmpty then
      let idx := (st.roundRobinIndex + 1) % list.length
      (list.get? idx, { st with roundRobinIndex := idx })
    else if !withoutData.isEmpty && withData.length < list.length
        && exploreCoin then
      (withoutData.get? (exploreIdx % withoutData.length), st)
    else
      match withData with
      | [] => (none, st)
      | p :: rest => (some (minBySndAux p rest).1, st)

/-- State and result after the `n`-th selection on a stable snapshot, the
exploration randomness at step `i` given by `coins i` and `idxs i`. -/
def iterSelect (coins : Nat → Bool) (idxs : Nat → Nat) (list : List Entry) :
    Nat → RTState × Option Entry
  | 0 => (initRT, none)
  | n + 1 =>
      let st := (iterSelect coins idxs list n).1
      let step := selectServer st list (coins n) (idxs n)
      (step.2, step.1)

end RT

namespace BETA1

open LB

/-- `capacity_factor = 1.25` (constructor default). -/
def capacityFactor : ℚ := 5 / 4

/-- `warmup_duration = 60` seconds (constructor default). -/
def warmupDuration : ℚ := 60

/-- `warmup_quota_factor = 0.3` (constructor default). -/
def warmupQuotaFactor : ℚ := 3 / 10

/-- `recent_key_limit = 1000`. -/
def recentKeyLimit : Nat := 1000

/-- Per-server state of `BETA1Strategy` (`self.server_state[k]`). -/
structure BSrv where
  totalRequests : Nat
  recentKeys : List String
  warmupStart : Option ℚ
  warmupRequests : Nat
  isNew : Bool
  deriving DecidableEq, Repr

/-- The defaultdict default record. -/
def defaultBSrv : BSrv :=
  { totalRequests := 0, recentKeys := [], warmupStart := none,
    warmupRequests := 0, isNew := false }

/-- Global state of `BETA1Strategy`. -/
structure BState where
  serverState : List (String × BSrv)
  knownServers : List String
  totalRequests : Nat
  cacheHits : Nat
  boundedLoadRedirects : Nat
  warmupRedirects : Nat
  deriving DecidableEq, Repr

/-- `BETA1Strategy.__init__`. -/
def initB : BState :=
  { serverState := [], knownServers := [], totalRequests := 0,
    cacheHits := 0, boundedLoadRedirects := 0, warmupRedirects := 0 }

/-- defaultdict read of a per-server record. -/
def getSrv (st : BState) (k : String) : BSrv :=
  (dictGet k st.serverState).getD defaultBSrv

/-- Python truthiness of the stored `warmup_start_time` (a float). -/
def truthyTime : Option ℚ → Bool
  | none => false
  | some t => decide (t ≠ 0)

/-- Keys of a snapshot, in order. -/
def currentKeys (list : List Entry) : List String :=
  list.map entryKey

/-- `_calculate_average_load`. -/
def avgLoad (list : List Entry) : ℚ :=
  if list.isEmpty then 0
  else ((list.map Entry.connections).sum : ℚ) / list.length

/-- `_is_overloaded`: `current_load > capacity_factor * average_load`. -/
def isOverloaded (srv : Entry) (avg : ℚ) : Bool :=
  decide (capacityFactor * avg < (srv.connections : ℚ))

/-- `_in_warmup_mode`: new, with a start time, within the window. -/
def inWarmupMode (now : ℚ) (st : BState) (k : String) : Bool :=
  match (getSrv st k).warmupStart with
  | none => false
  | some t => (getSrv st k).isNew && decide (now - t < warmupDuration)

/-- `_warmup_quota_exceeded`:
`warmup_requests >= warmup_quota_factor * average_load * warmup_duration`. -/
def warmupQuotaExceeded (st : BState) (k : String) (avg : ℚ) : Bool :=
  decide (warmupQuotaFactor * avg * warmupDuration ≤ ((getSrv st k).warmupRequests : ℚ))

/-- `_key_is_recent_on`. -/
def keyIsRecentOn (st : BState) (key k : String) : Bool :=
  decide (key ∈ (getSrv st k).recentKeys)

/-- The HRW hash weight for one server: the SHA-256 digest of
`f"{key}:{server_id}"` as an unsigned integer, abstracted by the `hash`
parameter (the proofs use only that it is a function of its input). -/
def hrwWeight (hash : String → Nat) (key k : String) : Nat :=
  hash (key ++ ":" ++ k)

/-- Stable descending insertion: among equal weights the earlier element
stays first, matching Python `list.sort(key=..., reverse=True)`. -/
def insertDesc (p : Entry × Nat) : List (Entry × Nat) → List (Entry × Nat)
  | [] => [p]
  | q :: rest => if q.2 ≤ p.2 then p :: q :: rest else q :: insertDesc p rest

/-- Stable descending sort by hash weight. -/
def sortDesc : List (Entry × Nat) → List (Entry × Nat)
  | [] => []
  | p :: rest => insertDesc p (sortDesc rest)

/-- `_hrw_rank`: servers sorted by descending hash weight for the key. -/
def hrwRank (hash : String → Nat) (key : String) (list : List Entry) :
    List Entry :=
  (sortDesc (list.map fun s => (s, hrwWeight hash key (entryKey s)))).map Prod.fst

/-- Python `set.add` on the recent-keys collection. -/
def bAddKey (key : String) (keys : List String) : List String :=
  if key ∈ keys then keys else keys ++ [key]

/-- `_update_server_state`: bump the total, insert the key (keeping the
newest half once the 1000-key cap is exceeded; the Python code rebuilds
the set from an arbitrary enumeration, here the insertion order), and
count a warm-up request while the server is new. -/
def updateServerState (st : BState) (k key : String) : BState :=
  let srv := getSrv st k
  let keys₁ := bAddKey key srv.recentKeys
  let keys₂ :=
    if recentKeyLimit < keys₁.length then
      keys₁.drop (keys₁.length - recentKeyLimit / 2)
    else keys₁
  let srv₁ :=
    { srv with
        totalRequests := srv.totalRequests + 1,
        recentKeys := keys₂,
        warmupRequests :=
          if srv.isNew then srv.warmupRequests + 1 else srv.warmupRequests }
  { st with serverState := dictSet k srv₁ st.serverState }

/-- The new-server action of `_detect_scaling_events`. -/
def markNewSrv (now : ℚ) (st : BState) (k : String) : BState :=
  let srv := getSrv st k
  let srv₁ := { srv with isNew := true, warmupStart := some now, warmupRequests := 0 }
  { st with serverState := dictSet k srv₁ st.serverState }

/-- The warm-up expiry action of `_detect_scaling_events`. -/
def expireSrv (now : ℚ) (st : BState) (k : String) : BState :=
  if (getSrv st k).isNew && truthyTime (getSrv st k).warmupStart
      && decide (warmupDuration ≤ now - (getSrv st k).warmupStart.getD 0) then
    { st with serverState :=
        dictSet k { getSrv st k with isNew := false, warmupStart := none } st.serverState }
  else st

/-- The middle of `_detect_scaling_events`: drop the per-server state of
removed servers (those known but absent from the snapshot) and refresh the
known set to the snapshot's keys. -/
def pruneAndRefresh (current : List String) (st : BState) : BState :=
  { st with
      serverState := st.serverState.filter fun p =>
        decide (p.1 ∉ st.knownServers.filter fun k => decide (k ∉ current)),
      knownServers := current }

/-- `_detect_scaling_events`: mark unknown servers as new, drop state of
removed servers, refresh the known set, then expire finished warm-ups
(`markNewSrv` leaves `knownServers` untouched, so pruning against the
updated state removes the same keys as the source's `removed` set). -/
def detectScalingEvents (now : ℚ) (list : List Entry) (st : BState) : BState :=
  let current := currentKeys list
  let newKeys := current.filter fun k => decide (k ∉ st.knownServers)
  let st₁ := newKeys.foldl (markNewSrv now) st
  current.foldl (expireSrv now) (pruneAndRefresh current st₁)

/-- The ranking walk of `select_server_with_key`: skip overloaded servers,
skip quota-exhausted warm-up servers (counting a warm-up redirect), stop at
the first survivor (counting a cache hit when the key is recent there). -/
def walkRank (now : ℚ) (key : String) (avg : ℚ) :
    List Entry → BState → Option Entry × BState
  | [], st => (none, st)
  | srv :: rest, st =>
      if isOverloaded srv avg then walkRank now key avg rest st
      else if inWarmupMode now st (entryKey srv)
          && warmupQuotaExceeded st (entryKey srv) avg then
        walkRank now key avg rest { st with warmupRedirects := st.warmupRedirects + 1 }
      else if keyIsRecentOn st key (entryKey srv) then
        (some srv, { st with cacheHits := st.cacheHits + 1 })
      else (some srv, st)

/-- Tail of `select_server_with_key` after the ranking walk: serve the
walk's pick, or fall back to the top-ranked server counting a bounded-load
redirect; either way update the chosen server's state and the request
total. -/
def finishSelect (key : String) (ranked : List Entry)
    (walked : Option Entry × BState) : Option Entry × BState :=
  match walked.1 with
  | some srv =>
      let st₃ := updateServerState walked.2 (entryKey srv) key
      (some srv, { st₃ with totalRequests := st₃.totalRequests + 1 })
  | none =>
      match ranked with
      | [] => (none, walked.2)
      | top :: _ =>
          let st₂ :=
            { walked.2 with boundedLoadRedirects := walked.2.boundedLoadRedirects + 1 }
          let st₃ := updateServerState st₂ (entryKey top) key
          (some top, { st₃ with totalRequests := st₃.totalRequests + 1 })

/-- `BETA1Strategy.select_server_with_key`.  `hash` abstracts the SHA-256
weight, `now` the value of `time.time()` during this call. -/
def selectServerWithKey (hash : String → Nat) (now : ℚ) (st : BState)
    (list : List Entry) (key : String) : Option Entry × BState :=
  match list with
  | [] => (none, st)
  | [srv] => (some srv, st)
  | _ :: _ :: _ =>
      finishSelect key (hrwRank hash key list)
        (walkRank now key (avgLoad list) (hrwRank hash key list)
          (detectScalingEvents now list st))

/-- A server is rejected by the ranking walk: overloaded, or in warm-up
with the quota exhausted. -/
def blockedSrv (now : ℚ) (st : BState) (avg : ℚ) (srv : Entry) : Bool :=
  isOverloaded srv avg ||
    (inWarmupMode now st (entryKey srv) && warmupQuotaExceeded st (entryKey srv) avg)

/-- Concrete stand-in for the SHA-256 weight in the closed examples: any
fixed function works, only its values on the two combined strings used by
the examples matter. -/
def exHash (s : String) : Nat :=
  if s = "k:a:1" then 2 else if s = "k:b:2" then 1 else 0

end BETA1

namespace LB

/-! ### Concrete runs used by the closed statements -/

/-- Disable an unregistered key, then register it: `add_server` resets
`healthy` while the key stays in the disabled set. -/
def c1Ops : List PoolOp :=
  [PoolOp.manuallyDisable "a" 1, PoolOp.addServer "a" 1]

/-- A sequence that never re-adds a disabled key. -/
def c1GoodOps : List PoolOp :=
  [PoolOp.addServer "a" 1, PoolOp.manuallyDisable "a" 1,
   PoolOp.markHealthy "a" 1, PoolOp.manuallyEnable "a" 1,
   PoolOp.addServer "b" 2, PoolOp.markUnhealthy "b" 2]

/-- A registered server with one active connection. -/
def c2State : PoolState :=
  runOps initPool [PoolOp.addServer "a" 1, PoolOp.incConn "a" 1]

/-- A freshly registered server (healthy, zero failures). -/
def c3State : PoolState :=
  runOps initPool [PoolOp.addServer "a" 1]

end LB

namespace BETA1

open LB

/-- First server of the affinity example (one active connection). -/
def c7A : Entry :=
  { host := "a", port := 1, healthy := true, connections := 1, failures := 0 }

/-- Second server of the affinity example (one active connection). -/
def c7B : Entry :=
  { host := "b", port := 2, healthy := true, connections := 1, failures := 0 }

/-- Two equally loaded servers, neither overloaded
(`1 ≤ 1.25 · 1`). -/
def c7List : List Entry := [c7A, c7B]

/-- Per-server record of `a:1` after 17 same-key selections from a fresh
strategy at time 1000: warming up, 17 warm-up requests consumed, the key
cached. -/
def c7WarmSrv : BSrv :=
  { totalRequests := 17, recentKeys := ["k"], warmupStart := some 1000,
    warmupRequests := 17, isNew := true }

/-- Per-server record of `b:2` over the same run: marked new at time 1000,
never selected. -/
def c7NewB : BSrv :=
  { totalRequests := 0, recentKeys := [], warmupStart := some 1000,
    warmupRequests := 0, isNew := true }

/-- Strategy state after 17 same-key selections from a fresh strategy at
time 1000 (call 18 still picks `a:1`; call 19 skips it: the warm-up quota
`0.3 · 1 · 60 = 18` is then consumed). -/
def c7CexSt : BState :=
  { serverState := [("a:1", c7WarmSrv), ("b:2", c7NewB)],
    knownServers := ["a:1", "b:2"], totalRequests := 17,
    cacheHits := 16, boundedLoadRedirects := 0, warmupRedirects := 0 }

/-- `a:1` after the 18th selection: the warm-up quota is now consumed. -/
def c7WarmSrv' : BSrv :=
  { totalRequests := 18, recentKeys := ["k"], warmupStart := some 1000,
    warmupRequests := 18, isNew := true }

/-- Strategy state after the 18th selection. -/
def c7CexSt' : BState :=
  { serverState := [("a:1", c7WarmSrv'), ("b:2", c7NewB)],
    knownServers := ["a:1", "b:2"], totalRequests := 18,
    cacheHits := 17, boundedLoadRedirects := 0, warmupRedirects := 0 }

/-- A state in which both servers are long known and not warming up. -/
def c7KnownSt : BState :=
  { serverState := [("a:1", defaultBSrv), ("b:2", defaultBSrv)],
    knownServers := ["a:1", "b:2"], totalRequests := 0,
    cacheHits := 0, boundedLoadRedirects := 0, warmupRedirects := 0 }

/-- The overloaded server of the bounded-load example. -/
def c8A : Entry :=
  { host := "a", port := 1, healthy := true, connections := 10, failures := 0 }

/-- The idle warm-up server of the bounded-load example. -/
def c8B : Entry :=
  { host := "b", port := 2, healthy := true, connections := 0, failures := 0 }

/-- One overloaded server and one idle server. -/
def c8List : List Entry := [c8A, c8B]

/-- `b:2` warming up with its quota (`0.3 · 5 · 60 = 90`) consumed. -/
def c8Srv : BSrv :=
  { totalRequests := 90, recentKeys := [], warmupStart := some 1000,
    warmupRequests := 90, isNew := true }

/-- Strategy state for the bounded-load example. -/
def c8St : BState :=
  { serverState := [("a:1", defaultBSrv), ("b:2", c8Srv)],
    knownServers := ["a:1", "b:2"], totalRequests := 90,
    cacheHits := 0, boundedLoadRedirects := 0, warmupRedirects := 0 }

end BETA1

namespace RT

open LB

/-- Three distinct idle servers with no recorded samples. -/
def rtList : List Entry :=
  [{ host := "a", port := 1, healthy := true, connections := 0, failures := 0 },
   { host := "b", port := 2, healthy := true, connections := 0, failures := 0 },
   { host := "c", port := 3, healthy := true, connections := 0, failures := 0 }]

end RT

namespace LB

/-! ## Dictionary and set lemmas -/

theorem dictGet_dictSet_self (k : String) (v : α) (l : List (String × α)) :
    dictGet k (dictSet k v l) = some v := by
  induction l with
  | nil => simp [dictSet, dictGet]
  | cons p rest ih =>
      obtain ⟨k₁, v₁⟩ := p
      by_cases h : k₁ = k
      · simp [dictSet, dictGet, h]
      · simp [dictSet, dictGet, h, ih]

theorem dictGet_dictSet_ne (k k₁ : String) (v : α) (l : List (String × α))
    (h : k₁ ≠ k) : dictGet k₁ (dictSet k v l) = dictGet k₁ l := by
  induction l with
  | nil => simp [dictSet, dictGet, Ne.symm h]
  | cons p rest ih =>
      obtain ⟨k₂, v₂⟩ := p
      by_cases h₂ : k₂ = k
      · subst h₂
        simp [dictSet, dictGet, Ne.symm h]
      · by_cases h₃ : k₂ = k₁ <;> simp [dictSet, dictGet, h₂, h₃, h, ih]

theorem dictSet_dictSet_same (k : String) (v : α) (l : List (String × α)) :
    dictSet k v (dictSet k v l) = dictSet k v l := by
  induction l with
  | nil => simp [dictSet]
  | cons p rest ih =>
      obtain ⟨k₁, v₁⟩ := p
      by_cases h : k₁ = k
      · simp [dictSet, h]
      · simp [dictSet, h, ih]

theorem dictGet_dictModify_self (k : String) (f : α → α) (l : List (String × α)) :
    dictGet k (dictModify k f l) = (dictGet k l).map f := by
  induction l with
  | nil => simp [dictModify, dictGet]
  | cons p rest ih =>
      obtain ⟨k₁, v₁⟩ := p
      by_cases h : k₁ = k
      · subst h
        simp [dictModify, dictGet]
      · simp [dictModify, dictGet, h] at ih ⊢
        exact ih

theorem dictGet_eq_none_iff (k : String) (l : List (String × α)) :
    dictGet k l = none ↔ ∀ p ∈ l, p.1 ≠ k := by
  induction l with
  | nil => simp [dictGet]
  | cons p rest ih =>
      obtain ⟨k₁, v₁⟩ := p
      by_cases h : k₁ = k
      · simp [dictGet, h]
      · simp [dictGet, h, ih]

theorem dictModify_of_none (k : String) (f : α → α) (l : List (String × α))
    (h : dictGet k l = none) : dictModify k f l = l := by
  induction l with
  | nil => simp [dictModify]
  | cons p rest ih =>
      obtain ⟨k₁, v₁⟩ := p
      by_cases h₁ : k₁ = k
      · simp [dictGet, h₁] at h
      · simp [dictGet, h₁] at h
        simp [dictModify, h₁] at ih ⊢
        exact ih h

theorem mem_dictSet (k : String) (v : α) (l : List (String × α))
    (p : String × α) (hp : p ∈ dictSet k v l) :
    (p.1 = k ∧ p.2 = v) ∨ p ∈ l := by
  induction l with
  | nil =>
      simp [dictSet] at hp
      subst hp; left; exact ⟨rfl, rfl⟩
  | cons q rest ih =>
      obtain ⟨k₁, v₁⟩ := q
      by_cases h : k₁ = k
      · subst h
        simp [dictSet] at hp
        rcases hp with hp | hp
        · subst hp; left; exact ⟨rfl, rfl⟩
        · right; simp [hp]
      · simp [dictSet, h] at hp
        rcases hp with hp | hp
        · subst hp; right; simp
        · rcases ih hp with hi | hi
          · left; exact hi
          · right; simp [hi]

theorem mem_setAdd (k x : String) (s : List String) :
    x ∈ setAdd k s ↔ x ∈ s ∨ x = k := by
  unfold setAdd
  by_cases h : k ∈ s
  · simp only [if_pos h]
    constructor
    · exact fun hx => Or.inl hx
    · rintro (hx | rfl)
      · exact hx
      · exact h
  · simp [if_neg h]

/-! ## C2: `add_server` on a duplicate key -/

/-- C2 (amended): `AddServer` twice with the same key is equivalent to
once, because the second call rewrites the same default entry. -/
theorem addServer_twice_eq_once (s : PoolState) (host : String) (port : Nat) :
    applyOp (applyOp s (PoolOp.addServer host port)) (PoolOp.addServer host port) =
      applyOp s (PoolOp.addServer host port) := by
  simp [applyOp, addServerOp, dictSet_dictSet_same]

/-- C2 counterexample: `add_server` on an existing key does not leave the
entry unchanged — it resets `connections` (and the other fields) to the
defaults. -/
theorem addServer_resets_fields_cex :
    connCount c2State "a" 1 = some 1 ∧
    connCount (applyOp c2State (PoolOp.addServer "a" 1)) "a" 1 = some 0 := by
  decide

/-! ## C4: mutations addressed to an unregistered key -/

/-- C4 (amended): on an unregistered key, `mark_healthy`, `mark_unhealthy`,
`increment_connections` and `decrement_connections` leave the pool state
completely unchanged, while `manually_disable_server`,
`manually_enable_server` and `record_response_time` leave the entry map
unchanged (the first two may change the disabled set, the last appends to a
response-time window). -/
theorem unregistered_mutation_noop (s : PoolState) (host : String) (port : Nat)
    (hmiss : dictGet (serverKey host port) s.servers = none) :
    applyOp s (PoolOp.markHealthy host port) = s ∧
    applyOp s (PoolOp.markUnhealthy host port) = s ∧
    applyOp s (PoolOp.incConn host port) = s ∧
    applyOp s (PoolOp.decConn host port) = s ∧
    (applyOp s (PoolOp.manuallyDisable host port)).servers = s.servers ∧
    (applyOp s (PoolOp.manuallyEnable host port)).servers = s.servers ∧
    ∀ d : ℚ,
      (applyOp s (PoolOp.recordResponseTime host port d)).servers = s.servers ∧
      (applyOp s (PoolOp.recordResponseTime host port d)).manuallyDisabled =
        s.manuallyDisabled := by
  refine ⟨?_, ?_, ?_, ?_, ?_, ?_, ?_⟩
  · by_cases h : serverKey host port ∈ s.manuallyDisabled <;>
      simp [applyOp, markHealthyOp, h, dictModify_of_none _ _ _ hmiss]
  · simp [applyOp, markUnhealthyOp, dictModify_of_none _ _ _ hmiss]
  · simp [applyOp, incConnOp, dictModify_of_none _ _ _ hmiss]
  · simp [applyOp, decConnOp, hmiss]
  · simp [applyOp, manuallyDisableOp, dictModify_of_none _ _ _ hmiss]
  · simp [applyOp, manuallyEnableOp, dictModify_of_none _ _ _ hmiss]
  · intro d
    exact ⟨rfl, rfl⟩

/-- Closed instance of `unregistered_mutation_noop` at the key `z:9`,
which is absent from `c2State`. -/
theorem unregistered_mutation_noop_witness :
    dictGet (serverKey "z" 9) c2State.servers = none ∧
    (applyOp c2State (PoolOp.markHealthy "z" 9) = c2State ∧
     applyOp c2State (PoolOp.markUnhealthy "z" 9) = c2State ∧
     applyOp c2State (PoolOp.incConn "z" 9) = c2State ∧
     applyOp c2State (PoolOp.decConn "z" 9) = c2State ∧
     (applyOp c2State (PoolOp.manuallyDisable "z" 9)).servers = c2State.servers ∧
     (applyOp c2State (PoolOp.manuallyEnable "z" 9)).servers = c2State.servers ∧
     ∀ d : ℚ,
       (applyOp c2State (PoolOp.recordResponseTime "z" 9 d)).servers = c2State.servers ∧
       (applyOp c2State (PoolOp.recordResponseTime "z" 9 d)).manuallyDisabled =
         c2State.manuallyDisabled) :=
  ⟨by decide, unregistered_mutation_noop c2State "z" 9 (by decide)⟩

/-- C4 counterexample: on an empty pool, `manually_disable_server` and
`record_response_time` with an unregistered key do change the observable
pool state. -/
theorem unregistered_mutation_cex :
    applyOp initPool (PoolOp.manuallyDisable "a" 1) ≠ initPool ∧
    applyOp initPool (PoolOp.recordResponseTime "a" 1 1) ≠ initPool := by
  decide

end LB

namespace LB

/-! ## C3: the failure threshold and recovery -/

theorem unhealthyIter_get (s : PoolState) (host : String) (port : Nat)
    (e : Entry) (hreg : dictGet (serverKey host port) s.servers = some e)
    (hf : e.failures = 0) :
    ∀ m : Nat,
      dictGet (serverKey host port) (unhealthyIter s host port m).servers =
        some { e with failures := m, healthy := if 3 ≤ m then false else e.healthy } := by
  intro m
  induction m with
  | zero =>
      have he :
          ({ e with failures := 0, healthy := if 3 ≤ 0 then false else e.healthy } : Entry) = e := by
        cases e
        simp at hf
        simp [hf]
      rw [unhealthyIter, he, hreg]
  | succ m ih =>
      rw [unhealthyIter]
      simp only [applyOp, markUnhealthyOp, dictGet_dictModify_self, ih]
      simp only [Option.map_some', Option.some.injEq, bumpFailures]
      cases e
      simp only [Entry.mk.injEq, true_and, and_true]
      split_ifs <;> first | rfl | omega

theorem unhealthyIter_disabled (s : PoolState) (host : String) (port : Nat) :
    ∀ m : Nat,
      (unhealthyIter s host port m).manuallyDisabled = s.manuallyDisabled := by
  intro m
  induction m with
  | zero => rfl
  | succ m ih =>
      rw [unhealthyIter]
      exact ih

/-- C3: a registered server with `failures = 0` and `healthy = True` stays
healthy through fewer than 3 consecutive `mark_unhealthy` calls, turns
unhealthy at exactly the third, and from the state reached by any number
`m` of consecutive `mark_unhealthy` calls (in particular `m = 3`, where
the server is unhealthy with `failures = 3`) a single `mark_healthy`
restores `healthy = True` with `failures = 0` unless the key is manually
disabled, in which case `mark_healthy` changes nothing. -/
theorem failure_threshold (s : PoolState) (host : String) (port : Nat)
    (e : Entry) (hreg : dictGet (serverKey host port) s.servers = some e)
    (hf : e.failures = 0) (hh : e.healthy = true) :
    (∀ m, m < 3 → healthyFlag (unhealthyIter s host port m) host port = some true) ∧
    healthyFlag (unhealthyIter s host port 3) host port = some false ∧
    (∀ m, serverKey host port ∉ s.manuallyDisabled →
      healthyFlag (applyOp (unhealthyIter s host port m) (PoolOp.markHealthy host port))
          host port = some true ∧
      failCount (applyOp (unhealthyIter s host port m) (PoolOp.markHealthy host port))
          host port = some 0) ∧
    (∀ m, serverKey host port ∈ s.manuallyDisabled →
      applyOp (unhealthyIter s host port m) (PoolOp.markHealthy host port) =
        unhealthyIter s host port m) := by
  refine ⟨?_, ?_, ?_, ?_⟩
  · intro m hm
    rw [healthyFlag, unhealthyIter_get s host port e hreg hf m]
    have h3 : ¬ 3 ≤ m := by omega
    simp [h3, hh]
  · rw [healthyFlag, unhealthyIter_get s host port e hreg hf 3]
    simp
  · intro m hd
    have hd₁ : serverKey host port ∉ (unhealthyIter s host port m).manuallyDisabled := by
      rw [unhealthyIter_disabled]
      exact hd
    rw [healthyFlag, failCount]
    simp [applyOp, markHealthyOp, hd₁, dictGet_dictModify_self,
      unhealthyIter_get s host port e hreg hf m, resetHealthy]
  · intro m hd
    have hd₁ : serverKey host port ∈ (unhealthyIter s host port m).manuallyDisabled := by
      rw [unhealthyIter_disabled]
      exact hd
    simp [applyOp, markHealthyOp, hd₁]

/-- Closed instance of `failure_threshold` on a freshly added server. -/
theorem failure_threshold_witness :
    (dictGet (serverKey "a" 1) c3State.servers =
      some { host := "a", port := 1, healthy := true, connections := 0, failures := 0 }) ∧
    ((∀ m, m < 3 → healthyFlag (unhealthyIter c3State "a" 1 m) "a" 1 = some true) ∧
     healthyFlag (unhealthyIter c3State "a" 1 3) "a" 1 = some false ∧
     (∀ m, serverKey "a" 1 ∉ c3State.manuallyDisabled →
       healthyFlag (applyOp (unhealthyIter c3State "a" 1 m) (PoolOp.markHealthy "a" 1))
           "a" 1 = some true ∧
       failCount (applyOp (unhealthyIter c3State "a" 1 m) (PoolOp.markHealthy "a" 1))
           "a" 1 = some 0) ∧
     (∀ m, serverKey "a" 1 ∈ c3State.manuallyDisabled →
       applyOp (unhealthyIter c3State "a" 1 m) (PoolOp.markHealthy "a" 1) =
         unhealthyIter c3State "a" 1 m)) :=
  ⟨by decide,
    failure_threshold c3State "a" 1
      { host := "a", port := 1, healthy := true, connections := 0, failures := 0 }
      (by decide) (by decide) (by decide)⟩

end LB

namespace LB

/-! ## C1: the healthy snapshot versus eligibility -/

theorem mem_dictModify (k : String) (f : α → α) (l : List (String × α))
    (p : String × α) (hp : p ∈ dictModify k f l) :
    ∃ q ∈ l, (q.1 = k ∧ p = (q.1, f q.2)) ∨ (q.1 ≠ k ∧ p = q) := by
  induction l with
  | nil => simp [dictModify] at hp
  | cons q rest ih =>
      obtain ⟨k₁, v₁⟩ := q
      by_cases h : k₁ = k
      · simp only [dictModify, if_pos h, List.mem_cons] at hp
        rcases hp with rfl | hp
        · exact ⟨(k₁, v₁), List.mem_cons_self _ _, Or.inl ⟨h, rfl⟩⟩
        · obtain ⟨q, hq, hc⟩ := ih hp
          exact ⟨q, List.mem_cons_of_mem _ hq, hc⟩
      · simp only [dictModify, if_neg h, List.mem_cons] at hp
        rcases hp with rfl | hp
        · exact ⟨(k₁, v₁), List.mem_cons_self _ _, Or.inr ⟨h, rfl⟩⟩
        · obtain ⟨q, hq, hc⟩ := ih hp
          exact ⟨q, List.mem_cons_of_mem _ hq, hc⟩

theorem poolInv_init : poolInv initPool := by
  intro p hp
  simp [initPool] at hp

theorem poolInv_addServer (s : PoolState) (host : String) (port : Nat)
    (hdis : serverKey host port ∉ s.manuallyDisabled) (hs : poolInv s) :
    poolInv (addServerOp host port s) := by
  intro p hp
  simp only [addServerOp] at hp ⊢
  rcases mem_dictSet _ _ _ p hp with ⟨h₁, h₂⟩ | hmem
  · refine ⟨?_, ?_⟩
    · rw [h₁, h₂]; rfl
    · intro _
      rw [h₁]
      exact hdis
  · exact hs p hmem

theorem poolInv_modify (s : PoolState) (k : String) (f : Entry → Entry)
    (hkey : ∀ e, entryKey (f e) = entryKey e)
    (hhl : ∀ e, (f e).healthy = true → e.healthy = true) (hs : poolInv s) :
    poolInv { s with servers := dictModify k f s.servers } := by
  intro p hp
  simp only at hp ⊢
  obtain ⟨q, hq, hc⟩ := mem_dictModify k f s.servers p hp
  rcases hc with ⟨hk, rfl⟩ | ⟨hk, rfl⟩
  · refine ⟨?_, ?_⟩
    · show q.1 = entryKey (f q.2)
      rw [hkey]
      exact (hs q hq).1
    · intro hh
      exact (hs q hq).2 (hhl _ hh)
  · exact hs p hq

theorem poolInv_markHealthy (s : PoolState) (host : String) (port : Nat)
    (hs : poolInv s) : poolInv (markHealthyOp host port s) := by
  unfold markHealthyOp
  by_cases hd : serverKey host port ∈ s.manuallyDisabled
  · simpa [hd] using hs
  · simp only [if_neg hd]
    intro p hp
    simp only at hp ⊢
    obtain ⟨q, hq, hc⟩ := mem_dictModify _ _ _ p hp
    rcases hc with ⟨hk, rfl⟩ | ⟨hk, rfl⟩
    · refine ⟨?_, ?_⟩
      · show q.1 = entryKey (resetHealthy q.2)
        exact (hs q hq).1
      · intro _
        rw [hk]
        exact hd
    · exact hs p hq

theorem poolInv_disable (s : PoolState) (host : String) (port : Nat)
    (hs : poolInv s) : poolInv (manuallyDisableOp host port s) := by
  intro p hp
  simp only [manuallyDisableOp] at hp ⊢
  obtain ⟨q, hq, hc⟩ := mem_dictModify _ _ _ p hp
  rcases hc with ⟨hk, rfl⟩ | ⟨hk, rfl⟩
  · refine ⟨(hs q hq).1, ?_⟩
    intro hh
    simp [forceUnhealthy] at hh
  · refine ⟨(hs p hq).1, ?_⟩
    intro hh
    rw [mem_setAdd]
    push_neg
    exact ⟨(hs p hq).2 hh, hk⟩

theorem poolInv_enable (s : PoolState) (host : String) (port : Nat)
    (hs : poolInv s) : poolInv (manuallyEnableOp host port s) := by
  intro p hp
  simp only [manuallyEnableOp] at hp ⊢
  obtain ⟨q, hq, hc⟩ := mem_dictModify _ _ _ p hp
  rcases hc with ⟨hk, rfl⟩ | ⟨hk, rfl⟩
  · refine ⟨(hs q hq).1, ?_⟩
    intro _
    rw [hk]
    intro hmem
    have := (List.mem_filter.mp hmem).2
    simp at this
  · refine ⟨(hs p hq).1, ?_⟩
    intro hh
    intro hmem
    exact (hs p hq).2 hh (List.mem_filter.mp hmem).1

theorem poolInv_applyOp (s : PoolState) (op : PoolOp) (hs : poolInv s)
    (hadd : ∀ host port, op = PoolOp.addServer host port →
      serverKey host port ∉ s.manuallyDisabled) :
    poolInv (applyOp s op) := by
  cases op with
  | addServer h p => exact poolInv_addServer s h p (hadd h p rfl) hs
  | markHealthy h p => exact poolInv_markHealthy s h p hs
  | markUnhealthy h p =>
      refine poolInv_modify s _ bumpFailures (fun e => rfl) ?_ hs
      intro e hh
      unfold bumpFailures at hh
      by_cases h3 : 3 ≤ e.failures + 1
      · simp [h3] at hh
      · simpa [h3] using hh
  | manuallyDisable h p => exact poolInv_disable s h p hs
  | manuallyEnable h p => exact poolInv_enable s h p hs
  | incConn h p =>
      exact poolInv_modify s _ incConnEntry (fun e => rfl) (fun e hh => hh) hs
  | decConn h p =>
      show poolInv (decConnOp h p s)
      unfold decConnOp
      cases dictGet (serverKey h p) s.servers with
      | none => exact hs
      | some e =>
          by_cases hc : 0 < e.connections
          · simp only [if_pos hc]
            exact poolInv_modify s _ decConnEntry (fun e => rfl) (fun e hh => hh) hs
          · simpa [hc] using hs
  | recordResponseTime h p d => exact hs

theorem poolInv_runOps (ops : List PoolOp) :
    ∀ s : PoolState, poolInv s → noDisabledReAdd s ops = true →
      poolInv (runOps s ops) := by
  induction ops with
  | nil => intro s hs _; exact hs
  | cons op rest ih =>
      intro s hs hgood
      have hsplit : opGuard s op = true ∧ noDisabledReAdd (applyOp s op) rest = true := by
        have hgood₁ : (opGuard s op && noDisabledReAdd (applyOp s op) rest) = true := hgood
        rw [Bool.and_eq_true] at hgood₁
        exact hgood₁
      refine ih (applyOp s op) (poolInv_applyOp s op hs ?_) hsplit.2
      intro host port hop
      subst hop
      simpa [opGuard] using hsplit.1

theorem healthy_eq_eligible_of_inv (s : PoolState) (hs : poolInv s) :
    getHealthyServers s = eligibleServers s ∧
      ∀ e ∈ getHealthyServers s, entryKey e ∉ s.manuallyDisabled := by
  have hmem : ∀ e ∈ s.servers.map Prod.snd, e.healthy = true →
      entryKey e ∉ s.manuallyDisabled := by
    intro e he hh
    rcases List.mem_map.mp he with ⟨q, hq, rfl⟩
    have h₁ := hs q hq
    rw [← h₁.1]
    exact h₁.2 hh
  refine ⟨?_, ?_⟩
  · unfold getHealthyServers eligibleServers
    apply List.filter_congr
    intro e he
    by_cases hh : e.healthy = true
    · simp [hh, hmem e he hh]
    · simp only [Bool.not_eq_true] at hh
      simp [hh]
  · intro e he
    have h₁ := List.mem_filter.mp he
    exact hmem e h₁.1 (by simpa using h₁.2)

/-- C1 (amended): along any operation sequence that never re-registers a
key while it is manually disabled, `get_healthy_servers` returns exactly
the entries that are healthy and not manually disabled; in particular no
manually disabled server appears in the returned list. -/
theorem healthySnapshot_eligible (ops : List PoolOp)
    (hgood : noDisabledReAdd initPool ops = true) :
    getHealthyServers (runOps initPool ops) = eligibleServers (runOps initPool ops) ∧
      ∀ e ∈ getHealthyServers (runOps initPool ops),
        entryKey e ∉ (runOps initPool ops).manuallyDisabled :=
  healthy_eq_eligible_of_inv _ (poolInv_runOps ops initPool poolInv_init hgood)

/-- Closed instance of `healthySnapshot_eligible` on a concrete
disable/enable/re-add sequence. -/
theorem healthySnapshot_eligible_witness :
    noDisabledReAdd initPool c1GoodOps = true ∧
    (getHealthyServers (runOps initPool c1GoodOps) =
        eligibleServers (runOps initPool c1GoodOps) ∧
      ∀ e ∈ getHealthyServers (runOps initPool c1GoodOps),
        entryKey e ∉ (runOps initPool c1GoodOps).manuallyDisabled) :=
  ⟨by decide, healthySnapshot_eligible c1GoodOps (by decide)⟩

/-- C1 counterexample: after `manually_disable_server("a", 1)` followed by
`add_server("a", 1)`, the snapshot differs from the eligible set and a
manually disabled key appears in the returned list. -/
theorem healthySnapshot_cex :
    getHealthyServers (runOps initPool c1Ops) ≠ eligibleServers (runOps initPool c1Ops) ∧
    (getHealthyServers (runOps initPool c1Ops)).any
        (fun e => decide (entryKey e ∈ (runOps initPool c1Ops).manuallyDisabled)) = true := by
  decide

end LB

namespace LB

/-! ## C5: per-request ordering in `handle_client` -/

/-- C5: whenever a server is selected, the handler's server-directed
actions are exactly `increment_connections`, the proxy call, then exactly
one `decrement_connections`, in that order; after them,
`pool.record_response_time` — and the strategy feedback when the strategy
supports it — runs with the request's duration if and only if the proxy
returned `True` (an exception or a `False` return records nothing). -/
theorem dispatch_order (k : String) (proxyOutcome : Option Bool)
    (supports : Bool) (dur : ℚ) :
    (handleClientTrace false (some k) proxyOutcome supports dur).filter isServerEv =
      [Ev.incActive k, Ev.proxyCall k, Ev.decActive k] ++
        (if proxyOutcome = some true then
          [Ev.poolRecord k dur] ++ (if supports then [Ev.stratRecord k dur] else [])
        else []) := by
  rcases proxyOutcome with _ | b
  · cases supports <;> rfl
  · cases b <;> cases supports <;> rfl

/-! ## C6: `handle_connection` outcome and upstream cleanup -/

/-- C6: `handle_connection` returns `False` exactly when the upstream TCP
connect fails; whenever the connect succeeds it returns `True` no matter
how the byte splice proceeds or terminates, and the upstream socket is
closed on every such exit path. -/
theorem proxy_ok_iff (connect : Option Unit) (script : List SpliceEv) :
    ((handleConnection connect script).ok = false ↔ connect = none) ∧
    (connect ≠ none →
      (handleConnection connect script).ok = true ∧
      (handleConnection connect script).upstreamClosed = true) := by
  cases connect <;> simp [handleConnection]

/-- Closed instance of `proxy_ok_iff` for a successful connect and a
splice script that aborts on a mid-stream socket error. -/
theorem proxy_ok_iff_witness :
    ((handleConnection (some ()) [SpliceEv.ready [(false, RecvOutcome.sockErr)]]).ok = false ↔
      (some () : Option Unit) = none) ∧
    ((some () : Option Unit) ≠ none →
      (handleConnection (some ()) [SpliceEv.ready [(false, RecvOutcome.sockErr)]]).ok = true ∧
      (handleConnection (some ()) [SpliceEv.ready [(false, RecvOutcome.sockErr)]]).upstreamClosed = true) :=
  proxy_ok_iff (some ()) [SpliceEv.ready [(false, RecvOutcome.sockErr)]]

end LB

namespace AURA

/-! ## C9: the feedback weights stay inside `[0.1, 1.0]` -/

theorem adjust_cases (w : Weights) (lat : List ℚ) :
    adjustWeightsFeedback w lat = w ∨
    adjustWeightsFeedback w lat =
      { beta := min (w.beta * (11 / 10)) 1, gamma := min (w.gamma * (11 / 10)) 1 } ∨
    adjustWeightsFeedback w lat =
      { beta := max (w.beta * (19 / 20)) (1 / 10),
        gamma := max (w.gamma * (19 / 20)) (1 / 10) } := by
  unfold adjustWeightsFeedback
  split_ifs <;> simp

theorem adjust_bounds (w : Weights) (lat : List ℚ)
    (hb₁ : 1 / 10 ≤ w.beta) (hb₂ : w.beta ≤ 1)
    (hg₁ : 1 / 10 ≤ w.gamma) (hg₂ : w.gamma ≤ 1) :
    1 / 10 ≤ (adjustWeightsFeedback w lat).beta ∧
      (adjustWeightsFeedback w lat).beta ≤ 1 ∧
      1 / 10 ≤ (adjustWeightsFeedback w lat).gamma ∧
      (adjustWeightsFeedback w lat).gamma ≤ 1 := by
  rcases adjust_cases w lat with h | h | h <;> rw [h]
  · exact ⟨hb₁, hb₂, hg₁, hg₂⟩
  · exact ⟨le_min (by linarith) (by norm_num), min_le_right _ _,
      le_min (by linarith) (by norm_num), min_le_right _ _⟩
  · exact ⟨le_max_right _ _, max_le (by linarith) (by norm_num),
      le_max_right _ _, max_le (by linarith) (by norm_num)⟩

/-- C9: starting from the initial weights `β = 0.3`, `γ = 0.4`, after any
sequence of feedback rounds (each a no-op below 100 samples, a `×1.1`
capped at 1.0, or a `×0.95` floored at 0.1) both weights remain within
`[0.1, 1.0]`. -/
theorem weights_bounded (rounds : List (List ℚ)) :
    1 / 10 ≤ (runFeedback initWeights rounds).beta ∧
      (runFeedback initWeights rounds).beta ≤ 1 ∧
      1 / 10 ≤ (runFeedback initWeights rounds).gamma ∧
      (runFeedback initWeights rounds).gamma ≤ 1 := by
  have hstep : ∀ (w : Weights), 1 / 10 ≤ w.beta → w.beta ≤ 1 →
      1 / 10 ≤ w.gamma → w.gamma ≤ 1 →
      ∀ rs : List (List ℚ),
        1 / 10 ≤ (runFeedback w rs).beta ∧ (runFeedback w rs).beta ≤ 1 ∧
          1 / 10 ≤ (runFeedback w rs).gamma ∧ (runFeedback w rs).gamma ≤ 1 := by
    intro w hb₁ hb₂ hg₁ hg₂ rs
    induction rs generalizing w with
    | nil => exact ⟨hb₁, hb₂, hg₁, hg₂⟩
    | cons l rest ih =>
        obtain ⟨a₁, a₂, a₃, a₄⟩ := adjust_bounds w l hb₁ hb₂ hg₁ hg₂
        exact ih _ a₁ a₂ a₃ a₄
  exact hstep initWeights (by norm_num [initWeights]) (by norm_num [initWeights])
    (by norm_num [initWeights]) (by norm_num [initWeights]) rounds

end AURA

namespace RT

open LB

/-! ## C10: the bootstrap round-robin advances before indexing -/

theorem avg_none_of_empty (st : RTState) (hrt : st.responseTimes = [])
    (k : String) : avgResponseTime st k = none := by
  simp [avgResponseTime, hrt, dictGet]

theorem select_bootstrap (st : RTState) (hrt : st.responseTimes = [])
    (list : List Entry) (hne : list ≠ []) (coin : Bool) (idx : Nat) :
    selectServer st list coin idx =
      (list.get? ((st.roundRobinIndex + 1) % list.length),
       { st with roundRobinIndex := (st.roundRobinIndex + 1) % list.length }) := by
  have hwd : (list.filterMap fun srv =>
      (avgResponseTime st (entryKey srv)).map fun a => (srv, a)) = [] := by
    rw [List.filterMap_eq_nil_iff]
    intro srv _
    rw [avg_none_of_empty st hrt]
    rfl
  have hemp : list.isEmpty = false := by
    cases list with
    | nil => exact absurd rfl hne
    | cons a rest => rfl
  unfold selectServer
  simp [hwd, hemp]

theorem iterSelect_state (coins : Nat → Bool) (idxs : Nat → Nat)
    (list : List Entry) (hlen : 2 ≤ list.length) :
    ∀ n : Nat, ((iterSelect coins idxs list n).1).responseTimes = [] ∧
      ((iterSelect coins idxs list n).1).roundRobinIndex = n % list.length := by
  have hne : list ≠ [] := by
    intro h
    rw [h] at hlen
    simp at hlen
  intro n
  induction n with
  | zero =>
      refine ⟨rfl, ?_⟩
      show (0 : Nat) = 0 % list.length
      rw [Nat.zero_mod]
  | succ n ih =>
      have hstep := select_bootstrap (iterSelect coins idxs list n).1 ih.1 list hne
        (coins n) (idxs n)
      have hmod : ((iterSelect coins idxs list n).1.roundRobinIndex + 1) % list.length =
          (n + 1) % list.length := by
        rw [ih.2, Nat.add_mod n 1 list.length,
          Nat.mod_eq_of_lt (show 1 < list.length by omega)]
      rw [iterSelect]
      simp only [hstep]
      exact ⟨ih.1, hmod⟩

theorem iterSelect_result (coins : Nat → Bool) (idxs : Nat → Nat)
    (list : List Entry) (hlen : 2 ≤ list.length) (n : Nat) :
    (iterSelect coins idxs list (n + 1)).2 = list.get? ((n + 1) % list.length) := by
  have hne : list ≠ [] := by
    intro h
    rw [h] at hlen
    simp at hlen
  have hst := iterSelect_state coins idxs list hlen n
  have hstep := select_bootstrap (iterSelect coins idxs list n).1 hst.1 list hne
    (coins n) (idxs n)
  have hmod : ((iterSelect coins idxs list n).1.roundRobinIndex + 1) % list.length =
      (n + 1) % list.length := by
    rw [hst.2, Nat.add_mod n 1 list.length,
      Nat.mod_eq_of_lt (show 1 < list.length by omega)]
  rw [iterSelect]
  simp only [hstep]
  rw [hmod]

/-- C10: on a fresh `ResponseTimeBasedStrategy` over a stable snapshot of
at least two distinct servers with no recorded samples, the bootstrap
round-robin advances the cursor before indexing: the first selection
returns the server at index 1, index 0 is never returned before the
`n`-th selection, and the `n`-th selection returns it. -/
theorem rt_bootstrap_order (coins : Nat → Bool) (idxs : Nat → Nat)
    (list : List Entry) (hlen : 2 ≤ list.length) (hnd : list.Nodup) :
    (iterSelect coins idxs list 1).2 = list.get? 1 ∧
    (∀ k, 1 ≤ k → k < list.length →
      (iterSelect coins idxs list k).2 ≠ list.get? 0) ∧
    (iterSelect coins idxs list list.length).2 = list.get? 0 := by
  refine ⟨?_, ?_, ?_⟩
  · have h := iterSelect_result coins idxs list hlen 0
    rwa [Nat.mod_eq_of_lt (show 0 + 1 < list.length by omega)] at h
  · intro k hk1 hkl
    obtain ⟨m, rfl⟩ : ∃ m, k = m + 1 := ⟨k - 1, by omega⟩
    have h := iterSelect_result coins idxs list hlen m
    rw [Nat.mod_eq_of_lt hkl] at h
    rw [h]
    have h0 : list.get? 0 = some (list.get ⟨0, by omega⟩) := List.get?_eq_get _
    have hm : list.get? (m + 1) = some (list.get ⟨m + 1, hkl⟩) := List.get?_eq_get _
    rw [h0, hm]
    intro heq
    have := List.Nodup.get_inj_iff hnd |>.mp (Option.some.inj heq)
    simp at this
  · obtain ⟨m, hm⟩ : ∃ m, list.length = m + 1 := ⟨list.length - 1, by omega⟩
    have h := iterSelect_result coins idxs list hlen m
    rw [← hm, Nat.mod_self] at h
    exact h

end RT

namespace RT

/-- Closed instance of `rt_bootstrap_order` on three distinct servers. -/
theorem rt_bootstrap_order_witness :
    (2 ≤ rtList.length ∧ rtList.Nodup) ∧
    ((iterSelect (fun _ => false) (fun _ => 0) rtList 1).2 = rtList.get? 1 ∧
     (∀ k, 1 ≤ k → k < rtList.length →
       (iterSelect (fun _ => false) (fun _ => 0) rtList k).2 ≠ rtList.get? 0) ∧
     (iterSelect (fun _ => false) (fun _ => 0) rtList rtList.length).2 = rtList.get? 0) :=
  ⟨⟨by decide, by decide⟩,
    rt_bootstrap_order (fun _ => false) (fun _ => 0) rtList (by decide) (by decide)⟩

end RT

namespace BETA1

open LB

/-! ## HRW ranking lemmas -/

theorem mem_insertDesc (p x : Entry × Nat) (l : List (Entry × Nat)) :
    x ∈ insertDesc p l ↔ x = p ∨ x ∈ l := by
  induction l with
  | nil => simp [insertDesc]
  | cons q rest ih =>
      by_cases h : q.2 ≤ p.2
      · simp [insertDesc, h]
      · simp [insertDesc, h, ih]
        tauto

theorem mem_sortDesc (x : Entry × Nat) (l : List (Entry × Nat)) :
    x ∈ sortDesc l ↔ x ∈ l := by
  induction l with
  | nil => simp [sortDesc]
  | cons p rest ih =>
      simp [sortDesc, mem_insertDesc, ih]

theorem length_insertDesc (p : Entry × Nat) (l : List (Entry × Nat)) :
    (insertDesc p l).length = l.length + 1 := by
  induction l with
  | nil => rfl
  | cons q rest ih =>
      by_cases h : q.2 ≤ p.2
      · simp [insertDesc, h]
      · simp [insertDesc, h, ih]

theorem length_sortDesc (l : List (Entry × Nat)) :
    (sortDesc l).length = l.length := by
  induction l with
  | nil => rfl
  | cons p rest ih => simp [sortDesc, length_insertDesc, ih]

theorem mem_hrwRank (hash : String → Nat) (key : String) (list : List Entry)
    (srv : Entry) : srv ∈ hrwRank hash key list ↔ srv ∈ list := by
  unfold hrwRank
  rw [List.mem_map]
  constructor
  · rintro ⟨p, hp, rfl⟩
    rw [mem_sortDesc] at hp
    obtain ⟨s, hs, rfl⟩ := List.mem_map.mp hp
    exact hs
  · intro hs
    refine ⟨(srv, hrwWeight hash key (entryKey srv)), ?_, rfl⟩
    rw [mem_sortDesc, List.mem_map]
    exact ⟨srv, hs, rfl⟩

theorem hrwRank_length (hash : String → Nat) (key : String) (list : List Entry) :
    (hrwRank hash key list).length = list.length := by
  unfold hrwRank
  rw [List.length_map, length_sortDesc, List.length_map]

/-! ## State-access lemmas -/

theorem getSrv_congr (st₁ st₂ : BState) (h : st₁.serverState = st₂.serverState)
    (k : String) : getSrv st₁ k = getSrv st₂ k := by
  unfold getSrv
  rw [h]

theorem blockedSrv_congr (now avg : ℚ) (s : Entry) (st₁ st₂ : BState)
    (h : st₁.serverState = st₂.serverState) :
    blockedSrv now st₁ avg s = blockedSrv now st₂ avg s := by
  unfold blockedSrv inWarmupMode warmupQuotaExceeded
  rw [getSrv_congr st₁ st₂ h]

theorem inWarmupMode_congr (now : ℚ) (st₁ st₂ : BState) (k : String)
    (h : st₁.serverState = st₂.serverState) :
    inWarmupMode now st₁ k = inWarmupMode now st₂ k := by
  unfold inWarmupMode
  rw [getSrv_congr st₁ st₂ h]

theorem inWarmupMode_of_old (now : ℚ) (st : BState) (k : String)
    (h : (getSrv st k).isNew = false) : inWarmupMode now st k = false := by
  unfold inWarmupMode
  cases hw : (getSrv st k).warmupStart with
  | none => rfl
  | some t => rw [h]; rfl

theorem getSrv_update_isNew (st : BState) (k key k₁ : String) :
    (getSrv (updateServerState st k key) k₁).isNew = (getSrv st k₁).isNew := by
  unfold updateServerState getSrv
  by_cases h : k₁ = k
  · subst h
    rw [dictGet_dictSet_self]
    rfl
  · rw [dictGet_dictSet_ne _ _ _ _ h]

theorem updateServerState_known (st : BState) (k key : String) :
    (updateServerState st k key).knownServers = st.knownServers := rfl

theorem updateServerState_redirects (st : BState) (k key : String) :
    (updateServerState st k key).boundedLoadRedirects = st.boundedLoadRedirects := rfl

end BETA1

namespace BETA1

open LB

/-! ## Ranking-walk lemmas -/

theorem walkRank_preserves (now : ℚ) (key : String) (avg : ℚ) :
    ∀ (l : List Entry) (st : BState),
      (walkRank now key avg l st).2.serverState = st.serverState ∧
      (walkRank now key avg l st).2.knownServers = st.knownServers ∧
      (walkRank now key avg l st).2.boundedLoadRedirects = st.boundedLoadRedirects := by
  intro l
  induction l with
  | nil => intro st; exact ⟨rfl, rfl, rfl⟩
  | cons srv rest ih =>
      intro st
      unfold walkRank
      by_cases hov : isOverloaded srv avg
      · simpa [hov] using ih st
      · by_cases hwq : inWarmupMode now st (entryKey srv)
            && warmupQuotaExceeded st (entryKey srv) avg
        · simpa [hov, hwq] using
            ih { st with warmupRedirects := st.warmupRedirects + 1 }
        · by_cases hc : keyIsRecentOn st key (entryKey srv) <;>
            simp [hov, hwq, hc]

theorem walkRank_none_blocked (now : ℚ) (key : String) (avg : ℚ) :
    ∀ (l : List Entry) (st : BState), (walkRank now key avg l st).1 = none →
      ∀ s ∈ l, blockedSrv now st avg s = true := by
  intro l
  induction l with
  | nil => intro st _ s hs; simp at hs
  | cons srv rest ih =>
      intro st hnone s hs
      unfold walkRank at hnone
      by_cases hov : isOverloaded srv avg
      · rw [if_pos hov] at hnone
        rcases List.mem_cons.mp hs with rfl | hs₁
        · unfold blockedSrv
          rw [hov]
          rfl
        · exact ih st hnone s hs₁
      · rw [if_neg hov] at hnone
        by_cases hwq : inWarmupMode now st (entryKey srv)
            && warmupQuotaExceeded st (entryKey srv) avg
        · rw [if_pos hwq] at hnone
          rcases List.mem_cons.mp hs with rfl | hs₁
          · unfold blockedSrv
            rw [hwq]
            simp
          · have hb := ih { st with warmupRedirects := st.warmupRedirects + 1 } hnone s hs₁
            rwa [blockedSrv_congr now avg s
              { st with warmupRedirects := st.warmupRedirects + 1 } st rfl] at hb
        · rw [if_neg hwq] at hnone
          by_cases hc : keyIsRecentOn st key (entryKey srv) <;>
            simp [hc] at hnone
  
theorem walkRank_some_not_overloaded (now : ℚ) (key : String) (avg : ℚ) :
    ∀ (l : List Entry) (st : BState) (srv : Entry),
      (walkRank now key avg l st).1 = some srv → isOverloaded srv avg = false := by
  intro l
  induction l with
  | nil => intro st srv h; simp [walkRank] at h
  | cons s₀ rest ih =>
      intro st srv h
      unfold walkRank at h
      by_cases hov : isOverloaded s₀ avg
      · rw [if_pos hov] at h
        exact ih st srv h
      · rw [if_neg hov] at h
        by_cases hwq : inWarmupMode now st (entryKey s₀)
            && warmupQuotaExceeded st (entryKey s₀) avg
        · rw [if_pos hwq] at h
          exact ih _ srv h
        · rw [if_neg hwq] at h
          by_cases hc : keyIsRecentOn st key (entryKey s₀) <;>
            · simp [hc] at h
              rw [← h]
              simpa using hov

theorem walkRank_head_pass (now : ℚ) (key : String) (avg : ℚ) (srv : Entry)
    (rest : List Entry) (st : BState)
    (hov : isOverloaded srv avg = false)
    (hwu : inWarmupMode now st (entryKey srv) = false) :
    (walkRank now key avg (srv :: rest) st).1 = some srv ∧
    (walkRank now key avg (srv :: rest) st).2.serverState = st.serverState ∧
    (walkRank now key avg (srv :: rest) st).2.knownServers = st.knownServers := by
  unfold walkRank
  by_cases hc : keyIsRecentOn st key (entryKey srv) <;>
    simp [hov, hwu, hc]

end BETA1


namespace BETA1

open LB

/-! ## Scaling-detection lemmas -/

theorem expireSrv_id (now : ℚ) (t : BState) (k : String)
    (h : (getSrv t k).isNew = false) : expireSrv now t k = t := by
  unfold expireSrv
  rw [h]
  simp

theorem expire_fold_id (now : ℚ) :
    ∀ (ks : List String) (t : BState),
      (∀ k ∈ ks, (getSrv t k).isNew = false) →
      ks.foldl (expireSrv now) t = t := by
  intro ks
  induction ks with
  | nil => intro t _; rfl
  | cons k rest ih =>
      intro t h
      rw [List.foldl_cons, expireSrv_id now t k (h k (by simp))]
      exact ih t fun k₁ hk₁ => h k₁ (by simp [hk₁])

theorem dictGet_filter_keys (removed : List String) (k : String)
    (l : List (String × BSrv)) (hk : k ∉ removed) :
    dictGet k (l.filter fun p => decide (p.1 ∉ removed)) = dictGet k l := by
  induction l with
  | nil => rfl
  | cons p rest ih =>
      obtain ⟨k₁, v₁⟩ := p
      rw [List.filter_cons]
      by_cases hkr : k₁ ∈ removed
      · have hne : ¬ k₁ = k := fun h => hk (h ▸ hkr)
        rw [if_neg (by simpa using hkr), ih]
        conv_rhs => rw [dictGet]
        rw [if_neg hne]
      · rw [if_pos (by simpa using hkr)]
        conv_lhs => rw [dictGet]
        conv_rhs => rw [dictGet]
        by_cases hke : k₁ = k
        · rw [if_pos hke, if_pos hke]
        · rw [if_neg hke, if_neg hke, ih]

theorem pruneAndRefresh_getSrv (current : List String) (st : BState)
    (k : String) (hk : k ∈ current) :
    getSrv (pruneAndRefresh current st) k = getSrv st k := by
  unfold pruneAndRefresh getSrv
  simp only
  rw [dictGet_filter_keys]
  intro hmem
  have := (List.mem_filter.mp hmem).2
  simp at this
  exact this hk

theorem detect_spec (now : ℚ) (list : List Entry) (st : BState)
    (hknown : ∀ k ∈ currentKeys list, k ∈ st.knownServers)
    (hnotnew : ∀ k ∈ currentKeys list, (getSrv st k).isNew = false) :
    (∀ k ∈ currentKeys list, getSrv (detectScalingEvents now list st) k = getSrv st k) ∧
    (detectScalingEvents now list st).knownServers = currentKeys list ∧
    (detectScalingEvents now list st).boundedLoadRedirects = st.boundedLoadRedirects := by
  have hnew : ((currentKeys list).filter fun k => decide (k ∉ st.knownServers)) = [] := by
    rw [List.filter_eq_nil_iff]
    intro k hk
    simp [hknown k hk]
  have hbody : detectScalingEvents now list st =
      (currentKeys list).foldl (expireSrv now) (pruneAndRefresh (currentKeys list) st) := by
    unfold detectScalingEvents
    simp only [hnew, List.foldl_nil]
  have hexp := expire_fold_id now (currentKeys list) (pruneAndRefresh (currentKeys list) st)
    (by
      intro k hk
      rw [pruneAndRefresh_getSrv _ _ _ hk]
      exact hnotnew k hk)
  rw [hbody, hexp]
  exact ⟨fun k hk => pruneAndRefresh_getSrv _ _ _ hk, rfl, rfl⟩

end BETA1

namespace BETA1

open LB

/-! ## C7: same-key affinity for known, non-warming, non-overloaded sets -/

theorem select_stable (hash : String → Nat) (now : ℚ) (st : BState)
    (list : List Entry) (key : String) (hne : list ≠ [])
    (hknown : ∀ s ∈ list, entryKey s ∈ st.knownServers)
    (hnotnew : ∀ s ∈ list, (getSrv st (entryKey s)).isNew = false)
    (hload : ∀ s ∈ list, isOverloaded s (avgLoad list) = false) :
    ∃ st₁, selectServerWithKey hash now st list key = ((hrwRank hash key list).head?, st₁) ∧
      (∀ s ∈ list, entryKey s ∈ st₁.knownServers) ∧
      (∀ s ∈ list, (getSrv st₁ (entryKey s)).isNew = false) := by
  have hknownK : ∀ k ∈ currentKeys list, k ∈ st.knownServers := by
    intro k hk
    obtain ⟨s, hs, rfl⟩ := List.mem_map.mp hk
    exact hknown s hs
  have hnotnewK : ∀ k ∈ currentKeys list, (getSrv st k).isNew = false := by
    intro k hk
    obtain ⟨s, hs, rfl⟩ := List.mem_map.mp hk
    exact hnotnew s hs
  rcases hlist : list with _ | ⟨a, _ | ⟨b, t⟩⟩
  · exact absurd hlist hne
  · subst hlist
    exact ⟨st, rfl, hknown, hnotnew⟩
  · subst hlist
    obtain ⟨hget, hknownd, _⟩ := detect_spec now (a :: b :: t) st hknownK hnotnewK
    cases hr : hrwRank hash key (a :: b :: t) with
    | nil =>
        have hl := hrwRank_length hash key (a :: b :: t)
        rw [hr] at hl
        simp at hl
    | cons r₀ rr =>
        have hr₀mem : r₀ ∈ (a :: b :: t) := by
          refine (mem_hrwRank hash key _ r₀).mp ?_
          rw [hr]
          exact List.mem_cons_self _ _
        have hkeymem : entryKey r₀ ∈ currentKeys (a :: b :: t) :=
          List.mem_map_of_mem _ hr₀mem
        have hov : isOverloaded r₀ (avgLoad (a :: b :: t)) = false := hload r₀ hr₀mem
        have hwu : inWarmupMode now (detectScalingEvents now (a :: b :: t) st)
            (entryKey r₀) = false := by
          refine inWarmupMode_of_old now _ _ ?_
          rw [hget _ hkeymem]
          exact hnotnewK _ hkeymem
        obtain ⟨hw₁, hw₂, hw₃⟩ := walkRank_head_pass now key (avgLoad (a :: b :: t))
          r₀ rr (detectScalingEvents now (a :: b :: t) st) hov hwu
        have hsel : selectServerWithKey hash now st (a :: b :: t) key =
            finishSelect key (r₀ :: rr)
              (walkRank now key (avgLoad (a :: b :: t)) (r₀ :: rr)
                (detectScalingEvents now (a :: b :: t) st)) := by
          show finishSelect key (hrwRank hash key (a :: b :: t))
              (walkRank now key (avgLoad (a :: b :: t)) (hrwRank hash key (a :: b :: t))
                (detectScalingEvents now (a :: b :: t) st)) = _
          rw [hr]
        set W := walkRank now key (avgLoad (a :: b :: t)) (r₀ :: rr)
          (detectScalingEvents now (a :: b :: t) st) with hWdef
        have hfin : finishSelect key (r₀ :: rr) W =
            (some r₀,
             { updateServerState W.2 (entryKey r₀) key with
                 totalRequests := (updateServerState W.2 (entryKey r₀) key).totalRequests + 1 }) := by
          unfold finishSelect
          rw [hw₁]
        refine ⟨{ updateServerState W.2 (entryKey r₀) key with
            totalRequests := (updateServerState W.2 (entryKey r₀) key).totalRequests + 1 },
          ?_, ?_, ?_⟩
        · rw [hsel, hfin]
          rfl
        · intro s hs
          show entryKey s ∈
            (updateServerState W.2 (entryKey r₀) key).knownServers
          rw [updateServerState_known, hw₃, hknownd]
          exact List.mem_map_of_mem _ hs
        · intro s hs
          have h₁ : getSrv
              { updateServerState W.2 (entryKey r₀) key with
                  totalRequests := (updateServerState W.2 (entryKey r₀) key).totalRequests + 1 }
              (entryKey s) = getSrv (updateServerState W.2 (entryKey r₀) key) (entryKey s) :=
            getSrv_congr _ _ rfl _
          rw [h₁, getSrv_update_isNew]
          have h₂ : getSrv W.2 (entryKey s) =
              getSrv (detectScalingEvents now (a :: b :: t) st) (entryKey s) :=
            getSrv_congr _ _ hw₂ _
          rw [h₂, hget _ (List.mem_map_of_mem _ hs)]
          exact hnotnewK _ (List.mem_map_of_mem _ hs)

/-- C7 (amended): with a fixed non-empty snapshot in which no server is
overloaded, and a strategy state in which every snapshot server is already
known and not in warm-up, two consecutive `select_server_with_key` calls
with the same key return the same server (the top HRW-ranked one), at any
two call times. -/
theorem helios_affinity (hash : String → Nat) (now₁ now₂ : ℚ) (st : BState)
    (list : List Entry) (key : String) (hne : list ≠ [])
    (hknown : ∀ s ∈ list, entryKey s ∈ st.knownServers)
    (hnotnew : ∀ s ∈ list, (getSrv st (entryKey s)).isNew = false)
    (hload : ∀ s ∈ list, isOverloaded s (avgLoad list) = false) :
    ∃ r st₁ st₂, selectServerWithKey hash now₁ st list key = (some r, st₁) ∧
      selectServerWithKey hash now₂ st₁ list key = (some r, st₂) := by
  obtain ⟨st₁, h₁, hk₁, hn₁⟩ := select_stable hash now₁ st list key hne hknown hnotnew hload
  obtain ⟨st₂, h₂, _, _⟩ := select_stable hash now₂ st₁ list key hne hk₁ hn₁ hload
  obtain ⟨r, hr⟩ : ∃ r, (hrwRank hash key list).head? = some r := by
    cases hh : hrwRank hash key list with
    | nil =>
        have hl := hrwRank_length hash key list
        rw [hh] at hl
        cases list with
        | nil => exact absurd rfl hne
        | cons a t => simp at hl
    | cons r rr => exact ⟨r, rfl⟩
  refine ⟨r, st₁, st₂, ?_, ?_⟩
  · rw [h₁, hr]
  · rw [h₂, hr]

end BETA1

namespace BETA1

open LB

/-! ## Evaluation lemmas for the closed HELIOS statements -/

theorem foldl_id (f : BState → String → BState) :
    ∀ (ks : List String) (t : BState), (∀ k ∈ ks, f t k = t) →
      ks.foldl f t = t := by
  intro ks
  induction ks with
  | nil => intro t _; rfl
  | cons k rest ih =>
      intro t h
      rw [List.foldl_cons, h k (by simp)]
      exact ih t fun k₁ hk₁ => h k₁ (by simp [hk₁])

theorem detect_noop (now : ℚ) (list : List Entry) (st : BState)
    (h₁ : ((currentKeys list).filter fun k => decide (k ∉ st.knownServers)) = [])
    (h₂ : st.knownServers = currentKeys list)
    (h₃ : ∀ k ∈ currentKeys list, expireSrv now st k = st) :
    detectScalingEvents now list st = st := by
  have h₄ : (st.knownServers.filter fun k => decide (k ∉ currentKeys list)) = [] := by
    rw [List.filter_eq_nil_iff]
    intro k hk
    rw [h₂] at hk
    simp [hk]
  unfold detectScalingEvents
  simp only [h₁, List.foldl_nil]
  have hprune : pruneAndRefresh (currentKeys list) st = st := by
    unfold pruneAndRefresh
    rw [h₄]
    have hfilt : (st.serverState.filter fun p => decide (p.1 ∉ ([] : List String))) =
        st.serverState := by
      simp
    rw [hfilt, ← h₂]
  rw [hprune]
  exact foldl_id _ _ _ h₃

theorem expireSrv_of_within (now : ℚ) (t : BState) (k : String)
    (h : decide (warmupDuration ≤ now - (getSrv t k).warmupStart.getD 0) = false) :
    expireSrv now t k = t := by
  unfold expireSrv
  rw [h]
  simp

theorem entryKey_c7A : entryKey c7A = "a:1" := rfl

theorem entryKey_c7B : entryKey c7B = "b:2" := rfl

theorem entryKey_c8A : entryKey c8A = "a:1" := rfl

theorem entryKey_c8B : entryKey c8B = "b:2" := rfl

theorem c7_avg : avgLoad c7List = 1 := by
  norm_num [avgLoad, c7List, c7A, c7B]

theorem c7_ranked : hrwRank exHash "k" c7List = [c7A, c7B] := by decide

theorem c7_detect : detectScalingEvents 1000 c7List c7CexSt = c7CexSt := by
  refine detect_noop 1000 c7List c7CexSt (by decide) (by decide) ?_
  intro k hk
  have hk₁ : k = "a:1" ∨ k = "b:2" := by
    simpa [currentKeys, c7List, entryKey_c7A, entryKey_c7B] using hk
  rcases hk₁ with rfl | rfl
  · exact expireSrv_of_within 1000 c7CexSt "a:1"
      (by norm_num [getSrv, dictGet, c7CexSt, c7WarmSrv, warmupDuration])
  · exact expireSrv_of_within 1000 c7CexSt "b:2"
      (by norm_num [getSrv, dictGet, c7CexSt, c7NewB, warmupDuration,
        (show ("a:1" : String) ≠ "b:2" by decide)])

theorem c7_detect' : detectScalingEvents 1000 c7List c7CexSt' = c7CexSt' := by
  refine detect_noop 1000 c7List c7CexSt' (by decide) (by decide) ?_
  intro k hk
  have hk₁ : k = "a:1" ∨ k = "b:2" := by
    simpa [currentKeys, c7List, entryKey_c7A, entryKey_c7B] using hk
  rcases hk₁ with rfl | rfl
  · exact expireSrv_of_within 1000 c7CexSt' "a:1"
      (by norm_num [getSrv, dictGet, c7CexSt', c7WarmSrv', warmupDuration])
  · exact expireSrv_of_within 1000 c7CexSt' "b:2"
      (by norm_num [getSrv, dictGet, c7CexSt', c7NewB, warmupDuration,
        (show ("a:1" : String) ≠ "b:2" by decide)])

theorem c7_walk : walkRank 1000 "k" 1 [c7A, c7B] c7CexSt =
    (some c7A, { c7CexSt with cacheHits := c7CexSt.cacheHits + 1 }) := by
  rw [walkRank]
  rw [if_neg (by norm_num [isOverloaded, c7A, capacityFactor] :
    ¬ isOverloaded c7A 1 = true)]
  rw [if_neg (by
    rw [entryKey_c7A]
    norm_num [inWarmupMode, warmupQuotaExceeded, getSrv, dictGet,
      c7CexSt, c7WarmSrv, warmupDuration, warmupQuotaFactor] :
    ¬ (inWarmupMode 1000 c7CexSt (entryKey c7A)
        && warmupQuotaExceeded c7CexSt (entryKey c7A) 1) = true)]
  rw [if_pos (by decide :
    keyIsRecentOn c7CexSt "k" (entryKey c7A) = true)]

theorem c7_walk' : walkRank 1000 "k" 1 [c7A, c7B] c7CexSt' =
    (some c7B, { c7CexSt' with warmupRedirects := c7CexSt'.warmupRedirects + 1 }) := by
  rw [walkRank]
  rw [if_neg (by norm_num [isOverloaded, c7A, capacityFactor] :
    ¬ isOverloaded c7A 1 = true)]
  rw [if_pos (by
    rw [entryKey_c7A]
    norm_num [inWarmupMode, warmupQuotaExceeded, getSrv, dictGet,
      c7CexSt', c7WarmSrv', warmupDuration, warmupQuotaFactor] :
    (inWarmupMode 1000 c7CexSt' (entryKey c7A)
        && warmupQuotaExceeded c7CexSt' (entryKey c7A) 1) = true)]
  rw [walkRank]
  rw [if_neg (by norm_num [isOverloaded, c7B, capacityFactor] :
    ¬ isOverloaded c7B 1 = true)]
  rw [if_neg (by
    rw [entryKey_c7B]
    norm_num [inWarmupMode, warmupQuotaExceeded, getSrv, dictGet,
      c7CexSt', c7NewB, warmupDuration, warmupQuotaFactor,
      (show ("a:1" : String) ≠ "b:2" by decide)] :
    ¬ (inWarmupMode 1000 { c7CexSt' with warmupRedirects := c7CexSt'.warmupRedirects + 1 }
          (entryKey c7B)
        && warmupQuotaExceeded
          { c7CexSt' with warmupRedirects := c7CexSt'.warmupRedirects + 1 }
          (entryKey c7B) 1) = true)]
  rw [if_neg (by decide :
    ¬ keyIsRecentOn { c7CexSt' with warmupRedirects := c7CexSt'.warmupRedirects + 1 }
        "k" (entryKey c7B) = true)]

theorem c7_sel : selectServerWithKey exHash 1000 c7CexSt c7List "k" =
    (some c7A, c7CexSt') := by
  show finishSelect "k" (hrwRank exHash "k" c7List)
      (walkRank 1000 "k" (avgLoad c7List) (hrwRank exHash "k" c7List)
        (detectScalingEvents 1000 c7List c7CexSt)) = _
  rw [c7_ranked, c7_detect, c7_avg, c7_walk]
  decide

theorem c7_sel' : selectServerWithKey exHash 1000 c7CexSt' c7List "k" =
    (some c7B,
     { c7CexSt' with
         serverState := [("a:1", c7WarmSrv'), ("b:2", { c7NewB with totalRequests := 1, recentKeys := ["k"], warmupRequests := 1 })],
         totalRequests := 19, warmupRedirects := 1 }) := by
  show finishSelect "k" (hrwRank exHash "k" c7List)
      (walkRank 1000 "k" (avgLoad c7List) (hrwRank exHash "k" c7List)
        (detectScalingEvents 1000 c7List c7CexSt')) = _
  rw [c7_ranked, c7_detect', c7_avg, c7_walk']
  decide

/-- C7 counterexample: from the strategy state reached by 17 same-key
selections on a fresh strategy, with a fixed two-server snapshot in which
no server is overloaded, the 18th and 19th selections with the same key
return different servers (the warm-up quota of `a:1` is crossed between
them). -/
theorem helios_affinity_cex :
    (∀ s ∈ c7List, isOverloaded s (avgLoad c7List) = false) ∧
    (selectServerWithKey exHash 1000 c7CexSt c7List "k").1 = some c7A ∧
    (selectServerWithKey exHash 1000
        (selectServerWithKey exHash 1000 c7CexSt c7List "k").2 c7List "k").1 = some c7B ∧
    c7A ≠ c7B := by
  refine ⟨?_, ?_, ?_, by decide⟩
  · intro s hs
    rw [c7_avg]
    have hs₁ : s = c7A ∨ s = c7B := by simpa [c7List] using hs
    rcases hs₁ with rfl | rfl
    · norm_num [isOverloaded, c7A, capacityFactor]
    · norm_num [isOverloaded, c7B, capacityFactor]
  · rw [c7_sel]
  · rw [c7_sel]
    show (selectServerWithKey exHash 1000 c7CexSt' c7List "k").1 = some c7B
    rw [c7_sel']

/-- Closed instance of `helios_affinity` on two known, fully warmed-up
servers. -/
theorem helios_affinity_witness :
    (c7List ≠ [] ∧ (∀ s ∈ c7List, entryKey s ∈ c7KnownSt.knownServers) ∧
     (∀ s ∈ c7List, (getSrv c7KnownSt (entryKey s)).isNew = false) ∧
     (∀ s ∈ c7List, isOverloaded s (avgLoad c7List) = false)) ∧
    (∃ r st₁ st₂, selectServerWithKey exHash 1000 c7KnownSt c7List "k" = (some r, st₁) ∧
      selectServerWithKey exHash 2000 st₁ c7List "k" = (some r, st₂)) :=
  ⟨⟨by decide, by decide, by decide, by
      intro s hs
      rw [c7_avg]
      have hs₁ : s = c7A ∨ s = c7B := by simpa [c7List] using hs
      rcases hs₁ with rfl | rfl
      · norm_num [isOverloaded, c7A, capacityFactor]
      · norm_num [isOverloaded, c7B, capacityFactor]⟩,
   helios_affinity exHash 1000 2000 c7KnownSt c7List "k" (by decide) (by decide)
     (by decide) (by
      intro s hs
      rw [c7_avg]
      have hs₁ : s = c7A ∨ s = c7B := by simpa [c7List] using hs
      rcases hs₁ with rfl | rfl
      · norm_num [isOverloaded, c7A, capacityFactor]
      · norm_num [isOverloaded, c7B, capacityFactor])⟩

end BETA1

namespace BETA1

open LB

/-! ## C8: the bounded-load guarantee -/

theorem markNewSrv_bLR (now : ℚ) (st : BState) (k : String) :
    (markNewSrv now st k).boundedLoadRedirects = st.boundedLoadRedirects := rfl

theorem expireSrv_bLR (now : ℚ) (st : BState) (k : String) :
    (expireSrv now st k).boundedLoadRedirects = st.boundedLoadRedirects := by
  unfold expireSrv
  split_ifs <;> rfl

theorem foldl_pres_bLR (f : BState → String → BState)
    (hf : ∀ t k, (f t k).boundedLoadRedirects = t.boundedLoadRedirects) :
    ∀ (ks : List String) (t : BState),
      (ks.foldl f t).boundedLoadRedirects = t.boundedLoadRedirects := by
  intro ks
  induction ks with
  | nil => intro t; rfl
  | cons k rest ih =>
      intro t
      rw [List.foldl_cons, ih, hf]

theorem detect_bLR (now : ℚ) (list : List Entry) (st : BState) :
    (detectScalingEvents now list st).boundedLoadRedirects = st.boundedLoadRedirects := by
  have h₁ := foldl_pres_bLR (expireSrv now) (expireSrv_bLR now) (currentKeys list)
    (pruneAndRefresh (currentKeys list)
      (((currentKeys list).filter fun k => decide (k ∉ st.knownServers)).foldl
        (markNewSrv now) st))
  have h₂ := foldl_pres_bLR (markNewSrv now) (markNewSrv_bLR now)
    ((currentKeys list).filter fun k => decide (k ∉ st.knownServers)) st
  exact h₁.trans h₂

/-- C8 (amended): for every non-empty snapshot, the returned server
respects the bounded-load cap `active ≤ capacityFactor · mean(active)`,
except when every snapshot server is rejected by the ranking walk —
overloaded or warm-up-quota-blocked — in which case the top HRW-ranked
server is returned and the bounded-load redirect counter increments. -/
theorem helios_bounded (hash : String → Nat) (now : ℚ) (st : BState)
    (list : List Entry) (key : String) (hne : list ≠ []) :
    ∃ srv stp, selectServerWithKey hash now st list key = (some srv, stp) ∧
      ((srv.connections : ℚ) ≤ capacityFactor * avgLoad list ∨
        ((∀ s ∈ list,
            blockedSrv now (detectScalingEvents now list st) (avgLoad list) s = true) ∧
          (hrwRank hash key list).head? = some srv ∧
          stp.boundedLoadRedirects = st.boundedLoadRedirects + 1)) := by
  rcases hlist : list with _ | ⟨a, _ | ⟨b, t⟩⟩
  · exact absurd hlist hne
  · subst hlist
    refine ⟨a, st, rfl, Or.inl ?_⟩
    have havg : avgLoad [a] = (a.connections : ℚ) := by
      simp [avgLoad]
    rw [havg]
    unfold capacityFactor
    have h0 : (0 : ℚ) ≤ (a.connections : ℚ) := Nat.cast_nonneg _
    linarith
  · subst hlist
    have hsel : selectServerWithKey hash now st (a :: b :: t) key =
        finishSelect key (hrwRank hash key (a :: b :: t))
          (walkRank now key (avgLoad (a :: b :: t)) (hrwRank hash key (a :: b :: t))
            (detectScalingEvents now (a :: b :: t) st)) := rfl
    obtain ⟨hp₁, hp₂, hp₃⟩ := walkRank_preserves now key (avgLoad (a :: b :: t))
      (hrwRank hash key (a :: b :: t)) (detectScalingEvents now (a :: b :: t) st)
    cases hw : (walkRank now key (avgLoad (a :: b :: t)) (hrwRank hash key (a :: b :: t))
        (detectScalingEvents now (a :: b :: t) st)).1 with
    | some srv =>
        have hov := walkRank_some_not_overloaded now key (avgLoad (a :: b :: t))
          (hrwRank hash key (a :: b :: t)) (detectScalingEvents now (a :: b :: t) st) srv hw
        have hfin : finishSelect key (hrwRank hash key (a :: b :: t))
            (walkRank now key (avgLoad (a :: b :: t)) (hrwRank hash key (a :: b :: t))
              (detectScalingEvents now (a :: b :: t) st)) =
            (some srv,
             { updateServerState
                 (walkRank now key (avgLoad (a :: b :: t)) (hrwRank hash key (a :: b :: t))
                   (detectScalingEvents now (a :: b :: t) st)).2 (entryKey srv) key with
                 totalRequests :=
                   (updateServerState
                     (walkRank now key (avgLoad (a :: b :: t)) (hrwRank hash key (a :: b :: t))
                       (detectScalingEvents now (a :: b :: t) st)).2 (entryKey srv) key).totalRequests + 1 }) := by
          unfold finishSelect
          rw [hw]
        refine ⟨srv, _, hsel.trans hfin, Or.inl ?_⟩
        refine not_lt.mp ?_
        intro hlt
        unfold isOverloaded at hov
        rw [decide_eq_false_iff_not] at hov
        exact hov hlt
    | none =>
        cases hr : hrwRank hash key (a :: b :: t) with
        | nil =>
            have hl := hrwRank_length hash key (a :: b :: t)
            rw [hr] at hl
            simp at hl
        | cons top rr =>
            rw [hr] at hsel hw hp₃
            have hblocked := walkRank_none_blocked now key (avgLoad (a :: b :: t))
              (top :: rr) (detectScalingEvents now (a :: b :: t) st) hw
            have hfin : finishSelect key (top :: rr)
                (walkRank now key (avgLoad (a :: b :: t)) (top :: rr)
                  (detectScalingEvents now (a :: b :: t) st)) =
                (some top,
                 { updateServerState
                     { (walkRank now key (avgLoad (a :: b :: t)) (top :: rr)
                         (detectScalingEvents now (a :: b :: t) st)).2 with
                         boundedLoadRedirects :=
                           (walkRank now key (avgLoad (a :: b :: t)) (top :: rr)
                             (detectScalingEvents now (a :: b :: t) st)).2.boundedLoadRedirects + 1 }
                     (entryKey top) key with
                     totalRequests :=
                       (updateServerState
                         { (walkRank now key (avgLoad (a :: b :: t)) (top :: rr)
                             (detectScalingEvents now (a :: b :: t) st)).2 with
                             boundedLoadRedirects :=
                               (walkRank now key (avgLoad (a :: b :: t)) (top :: rr)
                                 (detectScalingEvents now (a :: b :: t) st)).2.boundedLoadRedirects + 1 }
                         (entryKey top) key).totalRequests + 1 }) := by
              unfold finishSelect
              rw [hw]
            refine ⟨top, _, hsel.trans hfin, Or.inr ⟨?_, ?_, ?_⟩⟩
            · intro s hs
              have hs₁ : s ∈ hrwRank hash key (a :: b :: t) :=
                (mem_hrwRank hash key (a :: b :: t) s).mpr hs
              rw [hr] at hs₁
              exact hblocked s hs₁
            · rfl
            · rw [updateServerState_redirects]
              show (walkRank now key (avgLoad (a :: b :: t)) (top :: rr)
                  (detectScalingEvents now (a :: b :: t) st)).2.boundedLoadRedirects + 1 =
                st.boundedLoadRedirects + 1
              rw [hp₃, detect_bLR]

end BETA1

namespace BETA1

open LB

theorem c8_avg : avgLoad c8List = 5 := by
  norm_num [avgLoad, c8List, c8A, c8B]

theorem c8_ranked : hrwRank exHash "k" c8List = [c8A, c8B] := by decide

theorem c8_detect : detectScalingEvents 1000 c8List c8St = c8St := by
  refine detect_noop 1000 c8List c8St (by decide) (by decide) ?_
  intro k hk
  have hk₁ : k = "a:1" ∨ k = "b:2" := by
    simpa [currentKeys, c8List, entryKey_c8A, entryKey_c8B] using hk
  rcases hk₁ with rfl | rfl
  · exact expireSrv_id 1000 c8St "a:1" (by decide)
  · exact expireSrv_of_within 1000 c8St "b:2"
      (by norm_num [getSrv, dictGet, c8St, c8Srv, warmupDuration,
        (show ("a:1" : String) ≠ "b:2" by decide)])

theorem c8_walk : walkRank 1000 "k" 5 [c8A, c8B] c8St =
    (none, { c8St with warmupRedirects := c8St.warmupRedirects + 1 }) := by
  rw [walkRank]
  rw [if_pos (by norm_num [isOverloaded, c8A, capacityFactor] :
    isOverloaded c8A 5 = true)]
  rw [walkRank]
  rw [if_neg (by norm_num [isOverloaded, c8B, capacityFactor] :
    ¬ isOverloaded c8B 5 = true)]
  rw [if_pos (by
    rw [entryKey_c8B]
    norm_num [inWarmupMode, warmupQuotaExceeded, getSrv, dictGet,
      c8St, c8Srv, warmupDuration, warmupQuotaFactor,
      (show ("a:1" : String) ≠ "b:2" by decide)] :
    (inWarmupMode 1000 c8St (entryKey c8B)
        && warmupQuotaExceeded c8St (entryKey c8B) 5) = true)]
  rw [walkRank]

theorem c8_sel : selectServerWithKey exHash 1000 c8St c8List "k" =
    (some c8A,
     { c8St with
         serverState := [("a:1", { defaultBSrv with totalRequests := 1, recentKeys := ["k"] }), ("b:2", c8Srv)],
         totalRequests := 91, boundedLoadRedirects := 1, warmupRedirects := 1 }) := by
  show finishSelect "k" (hrwRank exHash "k" c8List)
      (walkRank 1000 "k" (avgLoad c8List) (hrwRank exHash "k" c8List)
        (detectScalingEvents 1000 c8List c8St)) = _
  rw [c8_ranked, c8_detect, c8_avg, c8_walk]
  decide

/-- C8 counterexample: from a reachable state in which `b:2` is warming up
with its quota consumed, the selection returns the overloaded top-ranked
server `a:1` (10 active > 1.25 · 5) even though `b:2` does not exceed the
bound — the claim's "except when every server exceeds that bound" clause
does not apply. -/
theorem helios_bounded_cex :
    (selectServerWithKey exHash 1000 c8St c8List "k").1 = some c8A ∧
    ¬ ((c8A.connections : ℚ) ≤ capacityFactor * avgLoad c8List) ∧
    isOverloaded c8B (avgLoad c8List) = false := by
  refine ⟨?_, ?_, ?_⟩
  · rw [c8_sel]
  · rw [c8_avg]
    norm_num [c8A, capacityFactor]
  · rw [c8_avg]
    norm_num [isOverloaded, c8B, capacityFactor]

/-- Closed instance of `helios_bounded` on a one-server snapshot. -/
theorem helios_bounded_witness :
    (([c8A] : List Entry) ≠ []) ∧
    (∃ srv stp, selectServerWithKey exHash 1000 initB [c8A] "k" = (some srv, stp) ∧
      ((srv.connections : ℚ) ≤ capacityFactor * avgLoad [c8A] ∨
        ((∀ s ∈ ([c8A] : List Entry),
            blockedSrv 1000 (detectScalingEvents 1000 [c8A] initB) (avgLoad [c8A]) s = true) ∧
          (hrwRank exHash "k" [c8A]).head? = some srv ∧
          stp.boundedLoadRedirects = initB.boundedLoadRedirects + 1))) :=
  ⟨by decide, helios_bounded exHash 1000 initB [c8A] "k" (by decide)⟩

end BETA1
